import Mathlib

/-!
Shallow embedding of the two CLI utilities of this repository
(`generate_contract.py` and `explain_contract.py`).  Text is modelled as
`List Char`; each Python helper becomes an executable Lean definition that
mirrors the source line by line.  Regex helpers (`MD_FENCE`, the
`patch_newlines` pattern, `ADDRESS_RE`, `contract\s+(\w+)`) are embedded as
deterministic scanners implementing exactly the leftmost-match semantics the
Python `re` module gives those particular patterns.
-/

namespace Web3LLM

/-- JSON inter-token whitespace accepted by Python's `json` module
(`' '`, `'\t'`, `'\n'`, `'\r'`). -/
def isJsonWs (c : Char) : Bool :=
  c = ' ' || c = '\t' || c = '\n' || c = '\r'

/-- Python (Unicode) whitespace, as used by `str.strip()` and by `\s` in
`re` patterns over `str`. -/
def isPyWs (c : Char) : Bool :=
  c = ' ' || c = '\t' || c = '\n' || c = '\r' || c = '\x0b' || c = '\x0c' ||
  c = '\x1c' || c = '\x1d' || c = '\x1e' || c = '\x1f' || c = '\u0085' ||
  c = '\u00a0' || c = '\u1680' || (0x2000 ≤ c.toNat && c.toNat ≤ 0x200a) ||
  c = '\u2028' || c = '\u2029' || c = '\u202f' || c = '\u205f' || c = '\u3000'

/-- Python `str.strip()`: drop leading and trailing whitespace. -/
def pyStrip (cs : List Char) : List Char :=
  ((cs.dropWhile isPyWs).reverse.dropWhile isPyWs).reverse

/-- Does the text start with the (case-insensitive) letters `json`?  Used by
the `(?:json)?` part of `MD_FENCE`. -/
def isJsonTag : List Char → Bool
  | j :: s :: o :: n :: _ =>
    (j = 'j' || j = 'J') && (s = 's' || s = 'S') &&
    (o = 'o' || o = 'O') && (n = 'n' || n = 'N')
  | _ => false

/-- Model of `MD_FENCE.sub("", raw)` where `MD_FENCE` is the case-insensitive
regex alternation of three backticks followed by an optional `json` tag, and
three bare backticks: remove every occurrence of three backticks, together
with a directly following (case-insensitive) `json` tag when present. -/
def stripFencesF : Nat → List Char → List Char
  | 0, cs => cs
  | _ + 1, [] => []
  | fuel + 1, c :: rest =>
    if c = '`' ∧ rest.take 2 = ['`', '`'] then
      if isJsonTag (rest.drop 2) then stripFencesF fuel ((rest.drop 2).drop 4)
      else stripFencesF fuel (rest.drop 2)
    else c :: stripFencesF fuel rest

/-- Fence removal at fuel `length` (each step consumes at least one
character, so the fuel is never exhausted). -/
def stripFences (cs : List Char) : List Char := stripFencesF cs.length cs

/-- Three consecutive backticks occur somewhere in the text. -/
def hasFence : List Char → Bool
  | [] => false
  | c :: rest => (decide (c = '`' ∧ rest.take 2 = ['`', '`'])) || hasFence rest

/-- Python `str.find`: index of the first occurrence, `none` for `-1`. -/
def findChar (t : Char) : List Char → Option Nat
  | [] => none
  | c :: cs => if c = t then some 0 else (findChar t cs).map (· + 1)

/-- Python `str.rfind`: index of the last occurrence, `none` for `-1`. -/
def rfindChar (t : Char) : List Char → Option Nat
  | [] => none
  | c :: cs =>
    match rfindChar t cs with
    | some i => some (i + 1)
    | none => if c = t then some 0 else none

/-- Function `extract_json` from `generate_contract.py`: strip markdown fences and
surrounding whitespace, then slice from the first `{` to the last `}`;
raise `ValueError("No JSON object found in model output")` when no such
bracket pair exists. -/
def extract_json (raw : List Char) : Except String (List Char) :=
  let r := pyStrip (stripFences raw)
  match findChar '{' r, rfindChar '}' r with
  | some s, some e =>
      if e ≤ s then .error "No JSON object found in model output"
      else .ok ((r.drop s).take (e + 1 - s))
  | none, _ => .error "No JSON object found in model output"
  | some _, none => .error "No JSON object found in model output"

/-- Python `str.replace` for a single-character pattern `t`. -/
def replaceChar (t : Char) (r : List Char) (cs : List Char) : List Char :=
  cs.flatMap fun c => if c = t then r else [c]

/-- The replacement body of `patch_newlines`:
`body.replace("\\", "\\\\").replace("\"", "\\\"").replace("\n", "\\n")`. -/
def escapeCodeBody (cs : List Char) : List Char :=
  replaceChar '\n' ['\\', 'n']
    (replaceChar '"' ['\\', '"']
      (replaceChar '\\' ['\\', '\\'] cs))

/-- Per-character view of `escapeCodeBody` (the three sequential `replace`
passes amount to one character-wise substitution). -/
def escChar (c : Char) : List Char :=
  if c = '\\' then ['\\', '\\']
  else if c = '"' then ['\\', '"']
  else if c = '\n' then ['\\', 'n']
  else [c]

/-- Match a literal character sequence, returning the rest of the input. -/
def matchLit : List Char → List Char → Option (List Char)
  | [], rest => some rest
  | _ :: _, [] => none
  | p :: ps, c :: cs => if c = p then matchLit ps cs else none

/-- Group 1 of the `patch_newlines` regex, `"code"\s*:\s*"`, matched at the
head of the input.  On success, returns the matched text and the rest.
(The greedy `\s*` runs are deterministic: each is followed by a
non-whitespace literal.) -/
def matchOpenAt (cs : List Char) : Option (List Char × List Char) :=
  match matchLit ['"', 'c', 'o', 'd', 'e', '"'] cs with
  | none => none
  | some r1 =>
    match matchLit [':'] (r1.dropWhile isPyWs) with
    | none => none
    | some r2 =>
      match matchLit ['"'] (r2.dropWhile isPyWs) with
      | none => none
      | some r3 =>
        some (['"', 'c', 'o', 'd', 'e', '"'] ++ r1.takeWhile isPyWs ++
              ':' :: r2.takeWhile isPyWs ++ ['"'], r3)

/-- Group 3 of the `patch_newlines` regex, `"\s*,\s*"explanation"`, matched
at the head of the input. -/
def matchDelimAt (cs : List Char) : Option (List Char × List Char) :=
  match matchLit ['"'] cs with
  | none => none
  | some r1 =>
    match matchLit [','] (r1.dropWhile isPyWs) with
    | none => none
    | some r2 =>
      match matchLit ['"', 'e', 'x', 'p', 'l', 'a', 'n', 'a', 't', 'i', 'o', 'n', '"']
          (r2.dropWhile isPyWs) with
      | none => none
      | some r3 =>
        some ('"' :: r1.takeWhile isPyWs ++ ',' :: r2.takeWhile isPyWs ++
              '"' :: ['e', 'x', 'p', 'l', 'a', 'n', 'a', 't', 'i', 'o', 'n', '"'], r3)

/-- The lazy `(.*?)` step: find the earliest position where group 3 matches,
returning the skipped body, the matched delimiter text and the rest. -/
def findDelim : List Char → Option (List Char × List Char × List Char)
  | [] => none
  | c :: rest =>
    match matchDelimAt (c :: rest) with
    | some (d, r) => some ([], d, r)
    | none => (findDelim rest).map fun p => (c :: p.1, p.2.1, p.2.2)

/-- Scan for the leftmost match of the `patch_newlines` regex; on a match,
rebuild the text with the body escaped (the `re.sub(..., count=1)` step). -/
def patchScan : List Char → Option (List Char)
  | [] => none
  | c :: rest =>
    match matchOpenAt (c :: rest) with
    | some (op, after) =>
      match findDelim after with
      | some (body, d, suf) => some (op ++ escapeCodeBody body ++ d ++ suf)
      | none => (patchScan rest).map (c :: ·)
    | none => (patchScan rest).map (c :: ·)

/-- Function `patch_newlines` from `generate_contract.py`: escape raw backslashes,
quotes and newlines inside the `"code"` string value (first match only);
texts without a match are returned unchanged. -/
def patch_newlines (cs : List Char) : List Char :=
  (patchScan cs).getD cs

/-- Decidable occurrence check for the `patch_newlines` pattern: some suffix
starts with group 1 and is later followed by a group-3 match. -/
def hasGenPattern : List Char → Bool
  | [] => false
  | c :: rest =>
    (match matchOpenAt (c :: rest) with
     | some (_, after) => (findDelim after).isSome
     | none => false) || hasGenPattern rest

/-- Texts matched by group 1 of the `patch_newlines` regex:
`"code"`, whitespace, `:`, whitespace, `"`. -/
def isOpenShape (op : List Char) : Prop :=
  ∃ w1 w2, (∀ c ∈ w1, isPyWs c = true) ∧ (∀ c ∈ w2, isPyWs c = true) ∧
    op = ['"', 'c', 'o', 'd', 'e', '"'] ++ w1 ++ ':' :: w2 ++ ['"']

/-- Texts matched by group 3 of the `patch_newlines` regex:
`"`, whitespace, `,`, whitespace, `"explanation"`. -/
def isDelimShape (d : List Char) : Prop :=
  ∃ w1 w2, (∀ c ∈ w1, isPyWs c = true) ∧ (∀ c ∈ w2, isPyWs c = true) ∧
    d = '"' :: w1 ++ ',' :: w2 ++
      '"' :: ['e', 'x', 'p', 'l', 'a', 'n', 'a', 't', 'i', 'o', 'n', '"']

/-- The `patch_newlines` pattern occurs in a text: a group-1 match somewhere,
followed (after any body) by a group-3 match. -/
def GenPatternOccurs (cs : List Char) : Prop :=
  ∃ pre op body d suf, isOpenShape op ∧ isDelimShape d ∧
    cs = pre ++ op ++ body ++ d ++ suf

/-- There is a `{` strictly before some `}` in the text (the complement of
the failure condition of `extract_json`). -/
def hasBracePair (cs : List Char) : Bool :=
  match findChar '{' cs with
  | none => false
  | some i => (cs.drop (i + 1)).any fun c => c = '}'

/-- Parsed JSON values.  Numbers keep their literal token (two parses of the
same text yield equal values; no floating-point semantics is modelled, and no
claim compares distinct numeric spellings).  Objects keep their key/value
pairs in parse order; Python's `dict` keeps the last binding of a duplicated
key, so lookups below take the last match. -/
inductive JVal where
  | jnull : JVal
  | jbool : Bool → JVal
  | jnum : List Char → JVal
  | jstr : List Char → JVal
  | jarr : List JVal → JVal
  | jobj : List (List Char × JVal) → JVal

/-- Skip JSON inter-token whitespace. -/
def skipWs (cs : List Char) : List Char := cs.dropWhile isJsonWs

/-- Value of one hexadecimal digit. -/
def hexVal (c : Char) : Option Nat :=
  if '0' ≤ c ∧ c ≤ '9' then some (c.toNat - '0'.toNat)
  else if 'a' ≤ c ∧ c ≤ 'f' then some (c.toNat - 'a'.toNat + 10)
  else if 'A' ≤ c ∧ c ≤ 'F' then some (c.toNat - 'A'.toNat + 10)
  else none

/-- Parse the body of a JSON string after the opening quote, per Python's
strict `py_scanstring`: unescaped characters below 0x20 are rejected; the
short escapes and `\uXXXX` are interpreted.  (Modelling restriction:
`\uXXXX` surrogate halves are rejected, where Python would accept and pair
them; no claim exercises surrogates.) -/
def parseStringBody : List Char → Option (List Char × List Char)
  | [] => none
  | c :: rest =>
    if c = '"' then some ([], rest)
    else if c = '\\' then
      match rest with
      | [] => none
      | e :: rest2 =>
        if e = 'u' then
          match rest2 with
          | h1 :: h2 :: h3 :: h4 :: rest3 =>
            (match hexVal h1, hexVal h2, hexVal h3, hexVal h4 with
             | some a, some b, some c, some d =>
               let n := ((a * 16 + b) * 16 + c) * 16 + d
               if 0xd800 ≤ n ∧ n ≤ 0xdfff then none
               else (parseStringBody rest3).map fun p => (Char.ofNat n :: p.1, p.2)
             | _, _, _, _ => none)
          | _ => none
        else
          (match (if e = '"' then some '"'
                  else if e = '\\' then some '\\'
                  else if e = '/' then some '/'
                  else if e = 'b' then some '\x08'
                  else if e = 'f' then some '\x0c'
                  else if e = 'n' then some '\n'
                  else if e = 'r' then some '\r'
                  else if e = 't' then some '\t'
                  else none : Option Char) with
           | some c => (parseStringBody rest2).map fun p => (c :: p.1, p.2)
           | none => none)
    else if c.toNat < 0x20 then none
    else (parseStringBody rest).map fun p => (c :: p.1, p.2)

/-- Integer part of the `json` number regex: `0` or a nonzero digit followed
by digits. -/
def parseIntPart : List Char → Option (List Char × List Char)
  | [] => none
  | '0' :: rest => some (['0'], rest)
  | c :: rest =>
    if c.isDigit then
      some (c :: rest.takeWhile Char.isDigit, rest.dropWhile Char.isDigit)
    else none

/-- Optional fraction group `(\.\d+)?`: consumed only when complete. -/
def parseFracPart (cs : List Char) : List Char × List Char :=
  match cs with
  | '.' :: rest =>
    let ds := rest.takeWhile Char.isDigit
    if ds.isEmpty then ([], cs) else ('.' :: ds, rest.dropWhile Char.isDigit)
  | _ => ([], cs)

/-- Optional exponent group `([eE][-+]?\d+)?`: consumed only when complete. -/
def parseExpPart (cs : List Char) : List Char × List Char :=
  match cs with
  | e :: rest =>
    if e = 'e' || e = 'E' then
      match rest with
      | s :: rest2 =>
        if s = '+' || s = '-' then
          let ds := rest2.takeWhile Char.isDigit
          if ds.isEmpty then ([], cs)
          else (e :: s :: ds, rest2.dropWhile Char.isDigit)
        else
          let ds := rest.takeWhile Char.isDigit
          if ds.isEmpty then ([], cs) else (e :: ds, rest.dropWhile Char.isDigit)
      | [] => ([], cs)
    else ([], cs)
  | [] => ([], cs)

/-- The `json` number regex `NUMBER_RE` matched at the head of the input,
returning the literal and the rest. -/
def parseNumber (cs : List Char) : Option (List Char × List Char) :=
  let sc : List Char × List Char :=
    match cs with
    | '-' :: rest => (['-'], rest)
    | _ => ([], cs)
  match parseIntPart sc.2 with
  | none => none
  | some (ip, r1) =>
    let fp := parseFracPart r1
    let ep := parseExpPart fp.2
    some (sc.1 ++ ip ++ fp.1 ++ ep.1, ep.2)

/-- The scalar cases of Python's `json` scanner: the literals `null`, `true`,
`false`, then a number-regex match, then the non-standard constants `NaN`,
`Infinity`, `-Infinity` (accepted by default by `json.loads`), in the
scanner's order. -/
def parseSimple (cs : List Char) : Option (JVal × List Char) :=
  match matchLit ['n', 'u', 'l', 'l'] cs with
  | some r => some (.jnull, r)
  | none =>
  match matchLit ['t', 'r', 'u', 'e'] cs with
  | some r => some (.jbool true, r)
  | none =>
  match matchLit ['f', 'a', 'l', 's', 'e'] cs with
  | some r => some (.jbool false, r)
  | none =>
  match parseNumber cs with
  | some (lit, r) => some (.jnum lit, r)
  | none =>
  match matchLit ['N', 'a', 'N'] cs with
  | some r => some (.jnum ['N', 'a', 'N'], r)
  | none =>
  match matchLit ['I', 'n', 'f', 'i', 'n', 'i', 't', 'y'] cs with
  | some r => some (.jnum ['I', 'n', 'f', 'i', 'n', 'i', 't', 'y'], r)
  | none =>
  match matchLit ['-', 'I', 'n', 'f', 'i', 'n', 'i', 't', 'y'] cs with
  | some r => some (.jnum ['-', 'I', 'n', 'f', 'i', 'n', 'i', 't', 'y'], r)
  | none => none

/-- Parse mode: a full value, the members of an object (from the first key
onward, whitespace already skipped), or the elements of an array. -/
inductive PMode where
  | val : PMode
  | mem : PMode
  | elem : PMode

/-- Recursive-descent JSON parser following Python's `json.decoder`,
fuelled to make the recursion structural; `jsonLoads` supplies fuel
`length + 1`, which the recursion (consuming at least one character before
each fuelled call) can never exhaust.  In modes `mem`/`elem` the result is
the `jobj`/`jarr` of the remaining members/elements. -/
def parseF : Nat → PMode → List Char → Option (JVal × List Char)
  | 0, _, _ => none
  | fuel + 1, .val, cs =>
    match cs with
    | '{' :: rest =>
      (match skipWs rest with
       | [] => parseF fuel .mem []
       | c2 :: r2 =>
         if c2 = '}' then some (.jobj [], r2) else parseF fuel .mem (c2 :: r2))
    | '[' :: rest =>
      (match skipWs rest with
       | [] => parseF fuel .elem []
       | c2 :: r2 =>
         if c2 = ']' then some (.jarr [], r2) else parseF fuel .elem (c2 :: r2))
    | '"' :: rest => (parseStringBody rest).map fun p => (.jstr p.1, p.2)
    | _ => parseSimple cs
  | fuel + 1, .mem, cs =>
    match cs with
    | '"' :: rest =>
      (match parseStringBody rest with
       | none => none
       | some (key, r1) =>
         match skipWs r1 with
         | [] => none
         | c2 :: r2 =>
           if c2 = ':' then
             match parseF fuel .val (skipWs r2) with
             | none => none
             | some (v, r3) =>
               match skipWs r3 with
               | [] => none
               | c4 :: r4 =>
                 if c4 = ',' then
                   match parseF fuel .mem (skipWs r4) with
                   | some (.jobj ms, r5) => some (.jobj ((key, v) :: ms), r5)
                   | _ => none
                 else if c4 = '}' then some (.jobj [(key, v)], r4)
                 else none
           else none)
    | _ => none
  | fuel + 1, .elem, cs =>
    match parseF fuel .val cs with
    | none => none
    | some (v, r) =>
      match skipWs r with
      | [] => none
      | c2 :: r2 =>
        if c2 = ',' then
          match parseF fuel .elem (skipWs r2) with
          | some (.jarr vs, r3) => some (.jarr (v :: vs), r3)
          | _ => none
        else if c2 = ']' then some (.jarr [v], r2)
        else none

/-- Python `json.loads`: scan one value at the first non-whitespace
position and require only whitespace afterwards (`none` models a raised
`json.JSONDecodeError`). -/
def jsonLoads (cs : List Char) : Option JVal :=
  match parseF (cs.length + 1) .val (skipWs cs) with
  | some (v, rest) => if skipWs rest = [] then some v else none
  | none => none

/-- The JSON-normalisation pipeline of `call_llm` in `generate_contract.py`
(lines 93-97): try `json.loads(extract_json(raw))`; on a JSON decode error
retry with `patch_newlines` applied to the same extraction.  The boolean
records whether the repair pass was invoked.  (The second decode failure's
message is summarised as `"JSONDecodeError"`; no claim depends on its
text.) -/
def parseGenResponseT (raw : List Char) : Except String JVal × Bool :=
  match extract_json raw with
  | .error e => (.error e, false)
  | .ok t =>
    match jsonLoads t with
    | some v => (.ok v, false)
    | none =>
      match jsonLoads (patch_newlines t) with
      | some v => (.ok v, true)
      | none => (.error "JSONDecodeError", true)

/-- The JSON value recovered by the generator's normalizer (first component
of `parseGenResponseT`). -/
def parseGenResponse (raw : List Char) : Except String JVal :=
  (parseGenResponseT raw).1

/-- Opening of a generation-shaped response text: up to the opening quote
of the `code` value. -/
def genOpen : List Char :=
  '{' :: '"' :: 'c' :: 'o' :: 'd' :: 'e' :: '"' :: ':' :: '"' :: []

/-- Tail of a generation-shaped response text after the raw `code` content:
the closing quote, the `explanation` key, and its string value. -/
def genTail (expl : List Char) : List Char :=
  '"' :: ',' :: '"' :: 'e' :: 'x' :: 'p' :: 'l' :: 'a' :: 'n' :: 'a' ::
  't' :: 'i' :: 'o' :: 'n' :: '"' :: ':' :: '"' :: expl ++ ['"', '}']

/-- A raw LLM response of the generation shape: an object text whose `code`
and `explanation` string fields hold the given raw (possibly unescaped)
content. -/
def genShape (code expl : List Char) : List Char :=
  genOpen ++ code ++ genTail expl

/-- Last binding of a key in a parsed object (Python's `dict` keeps the
last duplicate). -/
def lookupLast (k : List Char) : List (List Char × JVal) → Option JVal
  | [] => none
  | (k', v) :: rest =>
    match lookupLast k rest with
    | some r => some r
    | none => if k' = k then some v else none

/-- The JSON normalisation in `call_llm` of `explain_contract.py`
(lines 157-162): strip the response text, remove markdown fences, strip
again, then `json.loads` (`none` models the raised `RuntimeError`). -/
def normalizeLLMJson (raw : List Char) : Option JVal :=
  jsonLoads (pyStrip (stripFences (pyStrip raw)))

/-- Wrap a text in markdown code fences, optionally tagging the opening
fence with `json`. -/
def wrapFence (tag : Bool) (cs : List Char) : List Char :=
  '`' :: '`' :: '`' :: (if tag then ['j', 's', 'o', 'n'] else []) ++
  '\n' :: cs ++ '\n' :: ['`', '`', '`']

/-- Python `str()` of a JSON-decoded value, as used by the validators.  It
is exact on strings (`str` of a `str` is the string itself), booleans and
`None`.  The number and container branches are NOT exact: Python prints
the decoded number (`str(json.loads("1e2"))` is `"100.0"`, not the token
`1e2`) and the `repr` of containers, while this function returns the
literal token and fixed placeholders.  Accordingly, every theorem below
whose conclusion evaluates this function carries hypotheses confining each
evaluated value to the string branch; the inexact branches are never
asserted to be the program's output. -/
def pyStrVal : JVal → List Char
  | .jstr s => s
  | .jbool true => ['T', 'r', 'u', 'e']
  | .jbool false => ['F', 'a', 'l', 's', 'e']
  | .jnull => ['N', 'o', 'n', 'e']
  | .jnum lit => lit
  | .jarr _ => ['<', 'l', 'i', 's', 't', '>']
  | .jobj _ => ['<', 'd', 'i', 'c', 't', '>']

/-- Python `sep.join(xs)`. -/
def joinSep (sep : List Char) : List (List Char) → List Char
  | [] => []
  | [x] => x
  | x :: xs => x ++ sep ++ joinSep sep xs

/-- One element of the `_normalise_lists` loop in `Summary`: a mapping is
flattened by joining `str` of its values with `" – "` (space, en dash,
space); anything else is passed through `str`. -/
def normItem : JVal → List Char
  | .jobj fields => joinSep [' ', '–', ' '] (fields.map fun kv => pyStrVal kv.2)
  | v => pyStrVal v

/-- The `values.get(k, [])` plus per-item normalisation of
`_normalise_lists` for one list field: a missing field defaults to the
empty list, a bare string is wrapped into a one-element list, a list maps
`normItem` over its elements, a mapping iterates over its keys (Python
`for item in dict` yields the keys, which are strings), and any other
value makes the `for` raise a `TypeError`, modelled as `none`. -/
def normaliseField : Option JVal → Option (List (List Char))
  | none => some []
  | some (.jstr s) => some [s]
  | some (.jarr items) => some (items.map normItem)
  | some (.jobj fields) => some (fields.map fun kv => kv.1)
  | some _ => none

/-- The validated `Summary` entity of `explain_contract.py`. -/
structure Summary where
  summary : List Char
  key_functions : List (List Char)
  permissions : List (List Char)
  security_patterns : List (List Char)

/-- Construction `Summary(**data)`: the `model_validator(mode="before")`
normalises the three list fields (missing ones default to `[]`), then
field validation requires `summary` to be a string.  Every failure — a
`ValidationError` or an exception escaping the validator — is an
`Except.error`; keyword expansion of a non-mapping also fails. -/
def mkSummary (v : JVal) : Except String Summary :=
  match v with
  | .jobj fields =>
    match normaliseField (lookupLast ("key_functions".toList) fields),
          normaliseField (lookupLast ("permissions".toList) fields),
          normaliseField (lookupLast ("security_patterns".toList) fields) with
    | some kf, some pm, some sp =>
      (match lookupLast ("summary".toList) fields with
       | some (.jstr s) => .ok ⟨s, kf, pm, sp⟩
       | _ => .error "validation error: summary")
    | _, _, _ => .error "TypeError in _normalise_lists"
  | _ => .error "Summary expects a mapping"

/-- The validated `ContractResponse` entity of `generate_contract.py`. -/
structure ContractResponse where
  code : List Char
  explanation : List Char

/-- Construction `ContractResponse(**data)`: `_normalise_expl` joins a
list-valued `explanation` into one string, each element as a `"- "` bullet
line; then validation requires `code` to be a string and `explanation` to
be a string (a list has already been joined; anything else fails the
`Union[str, List[str]]` field). -/
def mkContractResponse (v : JVal) : Except String ContractResponse :=
  match v with
  | .jobj fields =>
    match lookupLast ("code".toList) fields,
          (match lookupLast ("explanation".toList) fields with
           | some (.jarr items) =>
             some (JVal.jstr (joinSep ['\n']
               (items.map fun e => '-' :: ' ' :: pyStrVal e)))
           | other => other) with
    | some (.jstr c), some (.jstr e) => .ok ⟨c, e⟩
    | _, _ => .error "validation error"
  | _ => .error "ContractResponse expects a mapping"

/-- Content kinds produced by `load_target`. -/
inductive Kind where
  | abi : Kind
  | bytecode : Kind
  | solidity : Kind
deriving DecidableEq

/-- The `intro_map` of `build_prompt`. -/
def introFor : Kind → List Char
  | .abi => "Here is the JSON ABI of a smart contract:".toList
  | .bytecode => "Here is the EVM bytecode (hex):".toList
  | .solidity => "Here is the Solidity source code:".toList

/-- The payload-trimming step of `build_prompt`: payloads of length below
8000 are kept whole; otherwise the first 4000 and last 4000 characters are
joined by an ellipsis line. -/
def snippetOf (payload : List Char) : List Char :=
  if payload.length < 8000 then payload
  else payload.take 4000 ++ ['\n', '…', '\n'] ++
    payload.drop (payload.length - 4000)

/-- The fixed instruction block of `build_prompt` (the adjacent Python
string literals, concatenated). -/
def promptTail : List Char :=
  ("Produce a concise technical summary **in JSON only** with these keys: summary, key_functions, permissions, security_patterns." ++
   "Formatting guidelines:" ++
   "• **summary** – one sentence (≤ 50 words)." ++
   "• **key_functions** – list of strings like \"mint(address,uint256) – mints tokens to an address\"." ++
   "• **permissions** – list of strings like \"mint: MINTER_ROLE\" or \"addMinter: DEFAULT_ADMIN_ROLE\"." ++
   "• **security_patterns** – list of plain strings (e.g. \"Role‑based access via AccessControl\", \"ReentrancyGuard used\")." ++
   "Access‑control rule: any function that ultimately calls or is gated by OpenZeppelin’s `grantRole`, `revokeRole`, `hasRole`, `onlyRole`, or an inherited modifier such as `onlyRole(MINTER_ROLE)` **is considered protected**. Do NOT mark it ‘unprotected’." ++
   "Respond with valid minified JSON (no Markdown fences, no commentary).").toList

/-- Function `build_prompt` from `explain_contract.py`. -/
def build_prompt (kind : Kind) (payload : List Char) : List Char :=
  introFor kind ++ ['\n', '\n'] ++ snippetOf payload ++ promptTail

/-- External collaborators and ambient state consulted by the input
resolution of `explain_contract.py`, abstracted as one record: what
`fetch_abi` returns (already `None` when no registry key is configured,
the registry reports no verified ABI, or the request fails), whether
`SEPOLIA_RPC` is configured (`w3` is not `None`), the bytecode hex the
chain returns, the text on standard input, and the filesystem. -/
structure ResolverEnv where
  abiResult : Option (List Char)
  rpcConfigured : Bool
  bytecodeResult : List Char
  stdinText : List Char
  fileText : List Char → Option (List Char)

/-- Function `fetch_bytecode`: raises `RuntimeError` when `SEPOLIA_RPC` is
not configured, otherwise returns the chain's bytecode hex. -/
def fetch_bytecode (env : ResolverEnv) : Except String (List Char) :=
  if env.rpcConfigured then .ok env.bytecodeResult
  else .error "SEPOLIA_RPC not set for bytecode fetch."

/-- One hexadecimal character, as in the `ADDRESS_RE` character class. -/
def isHexDigit (c : Char) : Bool :=
  ('0' ≤ c && c ≤ '9') || ('a' ≤ c && c ≤ 'f') || ('A' ≤ c && c ≤ 'F')

/-- Full match of `ADDRESS_RE`: `0x` followed by exactly forty hex
characters. -/
def isAddressShaped : List Char → Bool
  | '0' :: 'x' :: rest => rest.length == 40 && rest.all isHexDigit
  | _ => false

/-- Function `load_target` from `explain_contract.py`: an address-shaped
target resolves through the ABI registry and then the chain (a falsy ABI
result — absent or empty — falls through to bytecode); the sentinel `-`
reads standard input; an existing path reads the file; anything else is
treated as literal Solidity/ABI text. -/
def load_target (env : ResolverEnv) (target : List Char) :
    Except String (Kind × List Char) :=
  if isAddressShaped target then
    match env.abiResult with
    | some abi =>
      if abi.isEmpty then (fetch_bytecode env).map fun b => (.bytecode, b)
      else .ok (.abi, abi)
    | none => (fetch_bytecode env).map fun b => (.bytecode, b)
  else if target = ['-'] then .ok (.solidity, env.stdinText)
  else
    match env.fileText target with
    | some txt => .ok (.solidity, txt)
    | none => .ok (.solidity, target)

/-- ASCII word characters of `\w` (Solidity contract names are ASCII). -/
def isWordChar (c : Char) : Bool :=
  c.isAlpha || c.isDigit || c = '_'

/-- Leftmost match of `re.search(r"contract\s+(\w+)", code)`, returning
group 1: the literal `contract`, at least one whitespace character, then a
maximal nonempty word-character run. -/
def findContractName : List Char → Option (List Char)
  | [] => none
  | c :: rest =>
    match matchLit ['c', 'o', 'n', 't', 'r', 'a', 'c', 't'] (c :: rest) with
    | some r1 =>
      (match r1 with
       | w :: _ =>
         if isPyWs w then
           (match r1.dropWhile isPyWs with
            | x :: _ =>
              if isWordChar x then some ((r1.dropWhile isPyWs).takeWhile isWordChar)
              else findContractName rest
            | [] => findContractName rest)
         else findContractName rest
       | [] => findContractName rest)
    | none => findContractName rest

/-- Function `default_filename`: the first `contract <Name>` declaration
names the output file `<Name>.sol`, defaulting to `Contract.sol`. -/
def default_filename (code : List Char) : List Char :=
  (findContractName code).getD ("Contract".toList) ++ ".sol".toList

/-- Outcome of the generator CLI after a successful LLM call: whether the
process exits with code 1, which file (if any) is written with which
content, and the lines printed to standard error. -/
structure GenOutcome where
  exitCode : Option Nat
  written : Option (List Char × List Char)
  stderrLines : List (List Char)

/-- The tail of `main` in `generate_contract.py` after a successful
`call_llm`: run the static-analysis guardrail; when it reports issues,
print them to standard error and exit 1 without writing; otherwise write
the generated code to `--out` or to the derived default filename.  (The
console echo of code and explanation, and a failed write's error message,
are outside every claim and not modelled.) -/
def genMainAfter (result : ContractResponse) (issues : List (List Char))
    (outPath : Option (List Char)) : GenOutcome :=
  if issues.isEmpty then
    { exitCode := none
      written := some (outPath.getD (default_filename result.code), result.code)
      stderrLines := [] }
  else
    { exitCode := some 1
      written := none
      stderrLines := "Static analysis found issues:".toList ::
        issues.map fun iss => ' ' :: '•' :: ' ' :: iss }

/-- Counterexample to C7 as stated: a payload of length exactly 8000 does
not exceed the stated 8000-character threshold, yet the prompt does not
embed it unchanged (the code truncates whenever the length is not strictly
below 8000). -/
theorem C7_counterexample :
    ¬ (build_prompt Kind.solidity (List.replicate 8000 'a') =
        introFor Kind.solidity ++ ['\n', '\n'] ++ List.replicate 8000 'a' ++ promptTail) := by
  intro h
  have hlen := congrArg List.length h
  simp only [build_prompt, snippetOf] at hlen
  rw [if_neg (show ¬ (List.replicate 8000 'a').length < 8000 by
    simp only [List.length_replicate]; omega)] at hlen
  simp only [List.length_append, List.length_take, List.length_drop,
    List.length_replicate, List.length_cons] at hlen
  omega

/-- C7, amended: the summarization prompt embeds the payload unchanged
exactly when its length is strictly below 8000 characters; at 8000 or more
it embeds the first 4000 characters, an ellipsis line, and the last 4000
characters. -/
theorem C7_prompt_truncation (kind : Kind) (p : List Char) :
    (p.length < 8000 →
      build_prompt kind p = introFor kind ++ ['\n', '\n'] ++ p ++ promptTail) ∧
    (8000 ≤ p.length →
      build_prompt kind p =
        introFor kind ++ ['\n', '\n'] ++
          (p.take 4000 ++ ['\n', '…', '\n'] ++ p.drop (p.length - 4000)) ++ promptTail) := by
  constructor
  · intro h
    simp [build_prompt, snippetOf, h]
  · intro h
    simp [build_prompt, snippetOf, Nat.not_lt.mpr h]

theorem C7_prompt_truncation_witness :
    build_prompt Kind.abi ['h', 'i'] =
      introFor Kind.abi ++ ['\n', '\n'] ++ ['h', 'i'] ++ promptTail ∧
    build_prompt Kind.abi (List.replicate 8000 'a') =
      introFor Kind.abi ++ ['\n', '\n'] ++
        ((List.replicate 8000 'a').take 4000 ++ ['\n', '…', '\n'] ++
          (List.replicate 8000 'a').drop ((List.replicate 8000 'a').length - 4000)) ++ promptTail :=
  ⟨(C7_prompt_truncation Kind.abi ['h', 'i']).1 (by decide),
   (C7_prompt_truncation Kind.abi (List.replicate 8000 'a')).2
     (le_of_eq (List.length_replicate 8000 'a').symm)⟩

/-- C8: when static analysis reports a non-empty issue list, the generator
prints the issues to standard error, exits with code 1 and writes no file;
and the file write is reached only when the issue list is empty. -/
theorem C8_guardrail (result : ContractResponse) (issues : List (List Char))
    (outPath : Option (List Char)) :
    (issues ≠ [] →
      genMainAfter result issues outPath =
        { exitCode := some 1, written := none,
          stderrLines := "Static analysis found issues:".toList ::
            issues.map fun iss => ' ' :: '•' :: ' ' :: iss }) ∧
    ((genMainAfter result issues outPath).written.isSome → issues = []) := by
  constructor
  · intro h
    simp [genMainAfter, h]
  · intro h
    by_cases he : issues = []
    · exact he
    · simp [genMainAfter, he] at h

theorem C8_guardrail_witness :
    genMainAfter ⟨['x'], ['e']⟩ [['i']] none =
      { exitCode := some 1, written := none,
        stderrLines := "Static analysis found issues:".toList ::
          [['i']].map fun iss => ' ' :: '•' :: ' ' :: iss } ∧
    ([] : List (List Char)) = [] :=
  ⟨(C8_guardrail ⟨['x'], ['e']⟩ [['i']] none).1 (by decide),
   (C8_guardrail ⟨['x'], ['e']⟩ [] none).2 (by decide)⟩

/-- C9: an address-shaped target resolves to the registry ABI when one is
yielded (a truthy result), otherwise to chain bytecode; with no RPC
endpoint configured the bytecode-fetch error propagates; and an
address-shaped target is never resolved as literal solidity text. -/
theorem C9_address_resolution (env : ResolverEnv) (target : List Char)
    (haddr : isAddressShaped target = true) :
    (∀ abi, env.abiResult = some abi → abi ≠ [] →
      load_target env target = .ok (.abi, abi)) ∧
    ((env.abiResult = none ∨ env.abiResult = some []) → env.rpcConfigured = true →
      load_target env target = .ok (.bytecode, env.bytecodeResult)) ∧
    ((env.abiResult = none ∨ env.abiResult = some []) → env.rpcConfigured = false →
      load_target env target = .error "SEPOLIA_RPC not set for bytecode fetch.") ∧
    (∀ payload, load_target env target ≠ .ok (.solidity, payload)) := by
  refine ⟨?_, ?_, ?_, ?_⟩
  · intro abi habi hne
    simp [load_target, haddr, habi, List.isEmpty_iff, hne]
  · rintro (habi | habi) hrpc <;>
      simp [load_target, haddr, habi, fetch_bytecode, hrpc, Except.map]
  · rintro (habi | habi) hrpc <;>
      simp [load_target, haddr, habi, fetch_bytecode, hrpc, Except.map]
  · intro payload h
    rcases habi : env.abiResult with _ | abi
    · rcases hrpc : env.rpcConfigured with _ | _ <;>
        simp [load_target, haddr, habi, fetch_bytecode, hrpc, Except.map] at h
    · by_cases hne : abi.isEmpty
      · rcases hrpc : env.rpcConfigured with _ | _ <;>
          simp [load_target, haddr, habi, hne, fetch_bytecode, hrpc, Except.map] at h
      · simp [load_target, haddr, habi, hne] at h

/-- A successful literal match decomposes the input. -/
theorem matchLit_eq : ∀ (lit cs rest : List Char),
    matchLit lit cs = some rest → cs = lit ++ rest := by
  intro lit
  induction lit with
  | nil =>
    intro cs rest h
    simp only [matchLit, Option.some.injEq] at h
    simp [h]
  | cons p ps ih =>
    intro cs rest h
    cases cs with
    | nil => simp [matchLit] at h
    | cons c cs' =>
      simp only [matchLit] at h
      split at h
      · next hc => subst hc; simp [ih cs' rest h]
      · exact absurd h (by simp)

/-- Matching a literal against itself followed by anything succeeds. -/
theorem matchLit_self : ∀ (lit r : List Char), matchLit lit (lit ++ r) = some r := by
  intro lit
  induction lit with
  | nil => intro r; simp [matchLit]
  | cons p ps ih => intro r; simp [matchLit, ih]

/-- Dropping whitespace walks over an all-whitespace prefix. -/
theorem dropWhile_ws_append (w t : List Char) (hw : ∀ c ∈ w, isPyWs c = true) :
    (w ++ t).dropWhile isPyWs = t.dropWhile isPyWs := by
  induction w with
  | nil => rfl
  | cons a w' ih =>
    simp only [List.cons_append, List.dropWhile_cons, hw a (by simp)]
    exact ih fun c hc => hw c (by simp [hc])

/-- Taking whitespace stops exactly at the first non-whitespace character. -/
theorem takeWhile_ws_append (w : List Char) (c : Char) (t : List Char)
    (hw : ∀ x ∈ w, isPyWs x = true) (hc : isPyWs c = false) :
    (w ++ c :: t).takeWhile isPyWs = w := by
  induction w with
  | nil => simp [List.takeWhile_cons, hc]
  | cons a w' ih =>
    simp only [List.cons_append, List.takeWhile_cons, hw a (by simp), if_true]
    rw [ih fun x hx => hw x (by simp [hx])]

/-- A nonempty whitespace-run head stops `dropWhile` at a non-whitespace
character. -/
theorem dropWhile_cons_neg (c : Char) (t : List Char) (hc : isPyWs c = false) :
    (c :: t).dropWhile isPyWs = c :: t := by
  simp [List.dropWhile_cons, hc]

/-- A successful group-1 match decomposes the input and yields a group-1
shaped text. -/
theorem matchOpenAt_eq (cs op rest : List Char)
    (h : matchOpenAt cs = some (op, rest)) : cs = op ++ rest ∧ isOpenShape op := by
  unfold matchOpenAt at h
  rcases hm : matchLit ['"', 'c', 'o', 'd', 'e', '"'] cs with _ | r1 <;>
    rw [hm] at h <;> simp only [] at h
  · exact absurd h (by simp)
  rcases h1 : matchLit [':'] (r1.dropWhile isPyWs) with _ | r2 <;>
    rw [h1] at h <;> simp only [] at h
  · exact absurd h (by simp)
  rcases h2 : matchLit ['"'] (r2.dropWhile isPyWs) with _ | r3 <;>
    rw [h2] at h <;> simp only [] at h
  · exact absurd h (by simp)
  simp only [Option.some.injEq, Prod.mk.injEq] at h
  obtain ⟨hop, hrest⟩ := h
  have hcs := matchLit_eq _ _ _ hm
  have hr1 : r1 = r1.takeWhile isPyWs ++ ':' :: r2 := by
    conv_lhs => rw [← List.takeWhile_append_dropWhile (p := isPyWs) (l := r1)]
    rw [matchLit_eq _ _ _ h1]
    simp
  have hr2 : r2 = r2.takeWhile isPyWs ++ '"' :: r3 := by
    conv_lhs => rw [← List.takeWhile_append_dropWhile (p := isPyWs) (l := r2)]
    rw [matchLit_eq _ _ _ h2]
    simp
  refine ⟨?_, ?_⟩
  · rw [hcs, ← hop, ← hrest]
    conv_lhs => rw [hr1]
    conv_lhs => rw [hr2]
    simp
  · exact ⟨r1.takeWhile isPyWs, r2.takeWhile isPyWs,
      fun c hc => List.mem_takeWhile_imp hc,
      fun c hc => List.mem_takeWhile_imp hc, by rw [← hop]⟩

/-- A group-1 shaped prefix is matched by `matchOpenAt`, greedily and
deterministically. -/
theorem matchOpenAt_complete (op rest : List Char) (h : isOpenShape op) :
    matchOpenAt (op ++ rest) = some (op, rest) := by
  obtain ⟨w1, w2, hw1, hw2, rfl⟩ := h
  unfold matchOpenAt
  rw [show (['"', 'c', 'o', 'd', 'e', '"'] ++ w1 ++ ':' :: w2 ++ ['"']) ++ rest
      = ['"', 'c', 'o', 'd', 'e', '"'] ++ (w1 ++ ':' :: (w2 ++ '"' :: rest)) by simp]
  rw [matchLit_self]
  simp only []
  rw [dropWhile_ws_append w1 _ hw1, dropWhile_cons_neg ':' _ (by decide)]
  rw [show (':' :: (w2 ++ '"' :: rest)) = [':'] ++ (w2 ++ '"' :: rest) from rfl, matchLit_self]
  simp only []
  rw [dropWhile_ws_append w2 _ hw2, dropWhile_cons_neg '"' _ (by decide)]
  rw [show ('"' :: rest) = ['"'] ++ rest from rfl, matchLit_self]
  simp only []
  simp only [List.singleton_append]
  rw [takeWhile_ws_append w1 ':' _ hw1 (by decide), takeWhile_ws_append w2 '"' _ hw2 (by decide)]

/-- A successful group-3 match decomposes the input and yields a group-3
shaped text. -/
theorem matchDelimAt_eq (cs d rest : List Char)
    (h : matchDelimAt cs = some (d, rest)) : cs = d ++ rest ∧ isDelimShape d := by
  unfold matchDelimAt at h
  rcases hm : matchLit ['"'] cs with _ | r1 <;> rw [hm] at h <;> simp only [] at h
  · exact absurd h (by simp)
  rcases h1 : matchLit [','] (r1.dropWhile isPyWs) with _ | r2 <;>
    rw [h1] at h <;> simp only [] at h
  · exact absurd h (by simp)
  rcases h2 : matchLit ['"', 'e', 'x', 'p', 'l', 'a', 'n', 'a', 't', 'i', 'o', 'n', '"']
      (r2.dropWhile isPyWs) with _ | r3 <;> rw [h2] at h <;> simp only [] at h
  · exact absurd h (by simp)
  simp only [Option.some.injEq, Prod.mk.injEq] at h
  obtain ⟨hdq, hrest⟩ := h
  have hcs := matchLit_eq _ _ _ hm
  have hr1 : r1 = r1.takeWhile isPyWs ++ ',' :: r2 := by
    conv_lhs => rw [← List.takeWhile_append_dropWhile (p := isPyWs) (l := r1)]
    rw [matchLit_eq _ _ _ h1]
    simp
  have hr2 : r2 = r2.takeWhile isPyWs ++
      ('"' :: ['e', 'x', 'p', 'l', 'a', 'n', 'a', 't', 'i', 'o', 'n', '"']) ++ r3 := by
    conv_lhs => rw [← List.takeWhile_append_dropWhile (p := isPyWs) (l := r2)]
    rw [matchLit_eq _ _ _ h2]
    simp
  refine ⟨?_, ?_⟩
  · rw [hcs, ← hdq, ← hrest]
    conv_lhs => rw [hr1]
    conv_lhs => rw [hr2]
    simp
  · exact ⟨r1.takeWhile isPyWs, r2.takeWhile isPyWs,
      fun c hc => List.mem_takeWhile_imp hc,
      fun c hc => List.mem_takeWhile_imp hc, by rw [← hdq]⟩

/-- A group-3 shaped prefix is matched by `matchDelimAt`. -/
theorem matchDelimAt_complete (d rest : List Char) (h : isDelimShape d) :
    matchDelimAt (d ++ rest) = some (d, rest) := by
  obtain ⟨w1, w2, hw1, hw2, rfl⟩ := h
  unfold matchDelimAt
  rw [show ('"' :: w1 ++ ',' :: w2 ++
        '"' :: ['e', 'x', 'p', 'l', 'a', 'n', 'a', 't', 'i', 'o', 'n', '"']) ++ rest
      = ['"'] ++ (w1 ++ ',' :: (w2 ++
          ('"' :: ['e', 'x', 'p', 'l', 'a', 'n', 'a', 't', 'i', 'o', 'n', '"']) ++ rest)) by simp]
  rw [matchLit_self]
  simp only []
  rw [dropWhile_ws_append w1 _ hw1, dropWhile_cons_neg ',' _ (by decide)]
  rw [show (',' :: (w2 ++ ('"' :: ['e', 'x', 'p', 'l', 'a', 'n', 'a', 't', 'i', 'o', 'n', '"']) ++ rest))
      = [','] ++ (w2 ++ ('"' :: ['e', 'x', 'p', 'l', 'a', 'n', 'a', 't', 'i', 'o', 'n', '"']) ++ rest)
      from rfl, matchLit_self]
  simp only []
  rw [show (w2 ++ ('"' :: ['e', 'x', 'p', 'l', 'a', 'n', 'a', 't', 'i', 'o', 'n', '"']) ++ rest)
      = w2 ++ ('"' :: (['e', 'x', 'p', 'l', 'a', 'n', 'a', 't', 'i', 'o', 'n', '"'] ++ rest)) by simp]
  rw [dropWhile_ws_append w2 _ hw2, dropWhile_cons_neg '"' _ (by decide)]
  rw [show ('"' :: (['e', 'x', 'p', 'l', 'a', 'n', 'a', 't', 'i', 'o', 'n', '"'] ++ rest))
      = ['"', 'e', 'x', 'p', 'l', 'a', 'n', 'a', 't', 'i', 'o', 'n', '"'] ++ rest from rfl,
    matchLit_self]
  simp only [List.singleton_append, List.cons_append]
  rw [takeWhile_ws_append w1 ',' _ hw1 (by decide)]
  rw [takeWhile_ws_append w2 '"' _ hw2 (by decide)]

/-- A successful lazy search decomposes the input at the earliest group-3
match. -/
theorem findDelim_eq : ∀ (cs b d r : List Char),
    findDelim cs = some (b, d, r) →
    cs = b ++ d ++ r ∧ matchDelimAt (d ++ r) = some (d, r) := by
  intro cs
  induction cs with
  | nil => intro b d r h; simp [findDelim] at h
  | cons c rest ih =>
    intro b d r h
    rw [findDelim] at h
    rcases hm : matchDelimAt (c :: rest) with _ | ⟨d0, r0⟩ <;> rw [hm] at h <;>
      simp only [] at h
    · rcases ho : findDelim rest with _ | ⟨⟨b', d', r'⟩⟩ <;> rw [ho] at h
      · simp at h
      · simp only [Option.map_some', Option.some.injEq, Prod.mk.injEq] at h
        obtain ⟨hb, hd, hr⟩ := h
        subst hb; subst hd; subst hr
        obtain ⟨hceq, hmd⟩ := ih b' d' r' ho
        exact ⟨by simp [hceq], hmd⟩
    · simp only [Option.some.injEq, Prod.mk.injEq] at h
      obtain ⟨hb, hd, hr⟩ := h
      subst hb; subst hd; subst hr
      obtain ⟨hceq, _⟩ := matchDelimAt_eq _ _ _ hm
      exact ⟨by simpa using hceq, by rw [← hceq]; exact hm⟩

/-- A successful scan decomposes the input around the leftmost match and
rewrites exactly the body. -/
theorem patchScan_decomp : ∀ (cs out : List Char), patchScan cs = some out →
    ∃ pre op body d suf,
      cs = pre ++ op ++ body ++ d ++ suf ∧
      out = pre ++ op ++ escapeCodeBody body ++ d ++ suf ∧
      isOpenShape op ∧ isDelimShape d := by
  intro cs
  induction cs with
  | nil => intro out h; simp [patchScan] at h
  | cons c rest ih =>
    intro out h
    rw [patchScan] at h
    rcases hm : matchOpenAt (c :: rest) with _ | ⟨op0, after⟩ <;> rw [hm] at h <;>
      simp only [] at h
    · rcases hp : patchScan rest with _ | out' <;> rw [hp] at h
      · simp at h
      · simp only [Option.map_some', Option.some.injEq] at h
        subst h
        obtain ⟨pre, op, body, d, suf, h1, h2, h3, h4⟩ := ih out' hp
        exact ⟨c :: pre, op, body, d, suf, by simp [h1], by simp [h2], h3, h4⟩
    · rcases hf : findDelim after with _ | ⟨⟨body0, d0, suf0⟩⟩ <;> rw [hf] at h <;>
        simp only [] at h
      · rcases hp : patchScan rest with _ | out' <;> rw [hp] at h
        · simp at h
        · simp only [Option.map_some', Option.some.injEq] at h
          subst h
          obtain ⟨pre, op, body, d, suf, h1, h2, h3, h4⟩ := ih out' hp
          exact ⟨c :: pre, op, body, d, suf, by simp [h1], by simp [h2], h3, h4⟩
      · simp only [Option.some.injEq] at h
        subst h
        obtain ⟨hcs, hshape⟩ := matchOpenAt_eq _ _ _ hm
        obtain ⟨hafter, hmd⟩ := findDelim_eq _ _ _ _ hf
        have hds := (matchDelimAt_eq _ _ _ hmd).2
        exact ⟨[], op0, body0, d0, suf0, by simp [hcs, hafter], by simp, hshape, hds⟩

/-- C4: the repair pass either returns its input unchanged, or the input
decomposes around a detected code-field span — a group-1 match (the
`"code"` key and opening quote) and a group-3 match (the
`","explanation"` delimiter) — and the output reproduces every character
outside the body unchanged and in order, escaping only the body. -/
theorem C4_patch_frame (cs : List Char) :
    patch_newlines cs = cs ∨
    ∃ pre op body d suf,
      cs = pre ++ op ++ body ++ d ++ suf ∧
      patch_newlines cs = pre ++ op ++ escapeCodeBody body ++ d ++ suf ∧
      isOpenShape op ∧ isDelimShape d := by
  rcases h : patchScan cs with _ | out
  · left
    rw [patch_newlines, h]
    rfl
  · right
    have := patchScan_decomp cs out h
    rw [patch_newlines, h]
    simpa using this

/-- Without an occurrence of the pattern, the scan finds nothing. -/
theorem patchScan_none_of (cs : List Char) (h : hasGenPattern cs = false) :
    patchScan cs = none := by
  induction cs with
  | nil => rfl
  | cons c rest ih =>
    rw [hasGenPattern] at h
    rw [patchScan]
    rcases hm : matchOpenAt (c :: rest) with _ | ⟨op, after⟩ <;>
      rw [hm] at h <;> simp only [Bool.false_or, Bool.or_eq_false_iff] at h <;>
      simp only []
    · rw [ih h]
      rfl
    · obtain ⟨hfd, hrest⟩ := h
      rcases hf : findDelim after with _ | x
      · simp only []
        rw [ih hrest]
        rfl
      · rw [hf] at hfd
        simp at hfd

/-- If a group-3 match exists at some split point, the lazy search finds
something. -/
theorem findDelim_isSome (b t d r : List Char) (h : matchDelimAt t = some (d, r)) :
    (findDelim (b ++ t)).isSome = true := by
  induction b with
  | nil =>
    have ht : t = d ++ r := (matchDelimAt_eq _ _ _ h).1
    obtain ⟨w1, w2, hw1, hw2, hd⟩ := (matchDelimAt_eq _ _ _ h).2
    subst hd
    rw [List.nil_append]
    rw [ht]
    rw [show ('"' :: w1 ++ ',' :: w2 ++
        '"' :: ['e', 'x', 'p', 'l', 'a', 'n', 'a', 't', 'i', 'o', 'n', '"']) ++ r
        = '"' :: (w1 ++ ',' :: w2 ++
          '"' :: ['e', 'x', 'p', 'l', 'a', 'n', 'a', 't', 'i', 'o', 'n', '"'] ++ r) by simp]
    rw [findDelim]
    rw [show '"' :: (w1 ++ ',' :: w2 ++
          '"' :: ['e', 'x', 'p', 'l', 'a', 'n', 'a', 't', 'i', 'o', 'n', '"'] ++ r)
        = ('"' :: w1 ++ ',' :: w2 ++
          '"' :: ['e', 'x', 'p', 'l', 'a', 'n', 'a', 't', 'i', 'o', 'n', '"']) ++ r by simp]
    rw [← ht, h]
    rfl
  | cons x b' ih =>
    rw [List.cons_append, findDelim]
    rcases hm : matchDelimAt (x :: (b' ++ t)) with _ | p
    · simp only []
      simpa using ih
    · simp

/-- An occurrence of the pattern makes the scan succeed. -/
theorem patchScan_isSome_of_occurs (cs : List Char) (h : GenPatternOccurs cs) :
    (patchScan cs).isSome = true := by
  obtain ⟨pre, op, body, d, suf, hop, hd, rfl⟩ := h
  induction pre with
  | nil =>
    rw [List.nil_append]
    rw [show op ++ body ++ d ++ suf = op ++ (body ++ (d ++ suf)) by simp]
    obtain ⟨w1, w2, hw1, hw2, hopeq⟩ := hop
    subst hopeq
    rw [show (['"', 'c', 'o', 'd', 'e', '"'] ++ w1 ++ ':' :: w2 ++ ['"']) ++ (body ++ (d ++ suf))
        = '"' :: (('c' :: 'o' :: 'd' :: 'e' :: '"' :: (w1 ++ ':' :: w2 ++ ['"'])) ++
            (body ++ (d ++ suf))) by simp]
    rw [patchScan]
    rw [show '"' :: (('c' :: 'o' :: 'd' :: 'e' :: '"' :: (w1 ++ ':' :: w2 ++ ['"'])) ++
            (body ++ (d ++ suf)))
        = (['"', 'c', 'o', 'd', 'e', '"'] ++ w1 ++ ':' :: w2 ++ ['"']) ++ (body ++ (d ++ suf))
        by simp]
    rw [matchOpenAt_complete _ _ ⟨w1, w2, hw1, hw2, rfl⟩]
    simp only []
    obtain ⟨v1, v2, hv1, hv2, hdeq⟩ := hd
    have hdm : matchDelimAt (d ++ suf) = some (d, suf) :=
      matchDelimAt_complete d suf ⟨v1, v2, hv1, hv2, hdeq⟩
    have hfs := findDelim_isSome body (d ++ suf) d suf hdm
    rcases hf : findDelim (body ++ (d ++ suf)) with _ | x
    · rw [hf] at hfs
      simp at hfs
    · simp
  | cons x pre' ih =>
    simp only [List.cons_append]
    rw [patchScan]
    rcases hm : matchOpenAt (x :: (pre' ++ op ++ body ++ d ++ suf)) with _ | ⟨op0, after0⟩
    · simp only []
      simpa using ih
    · simp only []
      rcases hf : findDelim after0 with _ | y
      · simp only []
        simpa using ih
      · simp

/-- C10: on any input in which the `patch_newlines` pattern does not occur
— no group-1 `"code"` opening anywhere followed by a group-3
`","explanation"` delimiter — the repair pass returns its input
unchanged. -/
theorem C10_patch_identity (cs : List Char) (h : ¬ GenPatternOccurs cs) :
    patch_newlines cs = cs := by
  rcases hs : patchScan cs with _ | out
  · rw [patch_newlines, hs]
    rfl
  · exfalso
    obtain ⟨pre, op, body, d, suf, h1, h2, h3, h4⟩ := patchScan_decomp cs out hs
    exact h ⟨pre, op, body, d, suf, h3, h4, h1⟩

theorem C10_patch_identity_witness :
    patch_newlines ("hello world no pattern here".toList) =
      "hello world no pattern here".toList :=
  C10_patch_identity _ fun hocc =>
    absurd (patchScan_isSome_of_occurs _ hocc) (by decide)

theorem C9_address_resolution_witness :
    load_target ⟨some ['A'], true, ['b'], [], fun _ => none⟩
        ('0' :: 'x' :: List.replicate 40 'a') = .ok (.abi, ['A']) ∧
    load_target ⟨none, true, ['b'], [], fun _ => none⟩
        ('0' :: 'x' :: List.replicate 40 'a') = .ok (.bytecode, ['b']) ∧
    load_target ⟨none, false, ['b'], [], fun _ => none⟩
        ('0' :: 'x' :: List.replicate 40 'a') =
      .error "SEPOLIA_RPC not set for bytecode fetch." ∧
    load_target ⟨some ['A'], true, ['b'], [], fun _ => none⟩
        ('0' :: 'x' :: List.replicate 40 'a') ≠ .ok (.solidity, ['z']) :=
  ⟨(C9_address_resolution _ _ (by decide)).1 ['A'] rfl (by decide),
   (C9_address_resolution _ _ (by decide)).2.1 (Or.inl rfl) rfl,
   (C9_address_resolution _ _ (by decide)).2.2.1 (Or.inl rfl) rfl,
   (C9_address_resolution _ _ (by decide)).2.2.2 ['z']⟩

/-- The last index returned by `rfindChar` really carries the character. -/
theorem rfindChar_spec (t : Char) : ∀ (cs : List Char) (i : Nat),
    rfindChar t cs = some i → ∃ u v, cs = u ++ t :: v ∧ u.length = i := by
  intro cs
  induction cs with
  | nil => intro i h; simp [rfindChar] at h
  | cons c rest ih =>
    intro i h
    rw [rfindChar] at h
    rcases hr : rfindChar t rest with _ | j <;> rw [hr] at h <;> simp only [] at h
    · split at h
      · next hc =>
        subst hc
        simp only [Option.some.injEq] at h
        exact ⟨[], rest, rfl, h⟩
      · exact absurd h (by simp)
    · simp only [Option.some.injEq] at h
      obtain ⟨u, v, hcs, hlen⟩ := ih j hr
      exact ⟨c :: u, v, by simp [hcs], by simp [hlen, ← h]⟩

/-- Without a brace pair, `extract_json`'s bracket search must fail: no
first `{`, or no last `}`, or the last `}` not after the first `{`. -/
theorem hasBracePair_cond (L : List Char) (h : hasBracePair L = false) :
    findChar '{' L = none ∨
    ∃ s, findChar '{' L = some s ∧
      (rfindChar '}' L = none ∨ ∃ e, rfindChar '}' L = some e ∧ e ≤ s) := by
  unfold hasBracePair at h
  rcases hf : findChar '{' L with _ | s
  · exact Or.inl rfl
  · right
    refine ⟨s, rfl, ?_⟩
    rw [hf] at h
    simp only [] at h
    rcases he : rfindChar '}' L with _ | e
    · exact Or.inl rfl
    · right
      refine ⟨e, rfl, ?_⟩
      by_contra hlt
      push_neg at hlt
      obtain ⟨u, v, hsplit, hlen⟩ := rfindChar_spec '}' L e he
      have hmem : '}' ∈ L.drop (s + 1) := by
        rw [hsplit, List.drop_append_eq_append_drop]
        have h0 : s + 1 - u.length = 0 := by omega
        rw [h0]
        simp
      have hany : (L.drop (s + 1)).any (fun c => decide (c = '}')) = true := by
        rw [List.any_eq_true]
        exact ⟨'}', hmem, by simp⟩
      rw [hany] at h
      exact absurd h (by simp)

/-- C2: on any raw output with no `{` strictly before a `}` (as
`extract_json` sees the text, after fence stripping and whitespace
stripping), the generator's normalizer fails with exactly the error naming
the absence of a JSON object, and the repair pass is never invoked (the
instrumentation boolean of `parseGenResponseT` is `false`). -/
theorem C2_no_json_object (raw : List Char)
    (h : hasBracePair (pyStrip (stripFences raw)) = false) :
    parseGenResponseT raw = (.error "No JSON object found in model output", false) := by
  have hdef : extract_json raw =
      (match findChar '{' (pyStrip (stripFences raw)),
             rfindChar '}' (pyStrip (stripFences raw)) with
       | some s, some e =>
         if e ≤ s then Except.error "No JSON object found in model output"
         else .ok (((pyStrip (stripFences raw)).drop s).take (e + 1 - s))
       | none, _ => .error "No JSON object found in model output"
       | some _, none => .error "No JSON object found in model output") := rfl
  have hex : extract_json raw = .error "No JSON object found in model output" := by
    rw [hdef]
    rcases hasBracePair_cond _ h with hf | ⟨s, hf, hrest⟩
    · rw [hf]
    · rcases hrest with he | ⟨e, he, hle⟩
      · rw [hf, he]
      · rw [hf, he]
        simp only []
        rw [if_pos hle]
  unfold parseGenResponseT
  rw [hex]

theorem C2_no_json_object_witness :
    parseGenResponseT ("plain text without any braces".toList) =
      (.error "No JSON object found in model output", false) :=
  C2_no_json_object _ (by decide)

/-- C5: a summary object whose `key_functions` is a list mixing plain
strings and mappings whose values are themselves strings (the fragment on
which the `str()` embedding is exact) validates to the `normItem` image of
the list — pure strings, one per input element, in order: a mapping whose
values are the strings `vals` becomes the `" – "`-join of `vals`, and a
string stays itself. -/
theorem C5_key_functions_normalisation (s : List Char) (items : List JVal)
    (_hmix : ∀ v ∈ items, (∃ str, v = .jstr str) ∨
      (∃ fields, v = .jobj fields ∧ ∀ kv ∈ fields, ∃ str, kv.2 = .jstr str)) :
    mkSummary (.jobj [("summary".toList, .jstr s),
                      ("key_functions".toList, .jarr items),
                      ("permissions".toList, .jarr []),
                      ("security_patterns".toList, .jarr [])]) =
      .ok ⟨s, items.map normItem, [], []⟩ ∧
    (items.map normItem).length = items.length ∧
    (∀ v ∈ items, ∀ str, v = .jstr str → normItem v = str) ∧
    (∀ v ∈ items, ∀ fields (vals : List (List Char)), v = .jobj fields →
      fields.map (fun kv => kv.2) = vals.map .jstr →
      normItem v = joinSep [' ', '–', ' '] vals) := by
  refine ⟨rfl, by simp, ?_, ?_⟩
  · intro v hv str hstr
    subst hstr
    rfl
  · intro v hv fields vals hfields hvals
    subst hfields
    show joinSep [' ', '–', ' '] (fields.map fun kv => pyStrVal kv.2)
      = joinSep [' ', '–', ' '] vals
    congr 1
    calc fields.map (fun kv => pyStrVal kv.2)
        = (fields.map fun kv => kv.2).map pyStrVal := by rw [List.map_map]; rfl
      _ = (vals.map .jstr).map pyStrVal := by rw [hvals]
      _ = vals := by rw [List.map_map]; exact List.map_id vals

theorem C5_key_functions_normalisation_witness :
    mkSummary (.jobj [("summary".toList, .jstr ['o', 'k']),
                      ("key_functions".toList,
                        .jarr [.jstr ['a'], .jobj [(['k'], .jstr ['v']), (['l'], .jstr ['w'])]]),
                      ("permissions".toList, .jarr []),
                      ("security_patterns".toList, .jarr [])]) =
      .ok ⟨['o', 'k'],
           [.jstr ['a'], .jobj [(['k'], .jstr ['v']), (['l'], .jstr ['w'])]].map normItem,
           [], []⟩ ∧
    ([JVal.jstr ['a'], .jobj [(['k'], .jstr ['v']), (['l'], .jstr ['w'])]].map normItem).length
      = [JVal.jstr ['a'], .jobj [(['k'], .jstr ['v']), (['l'], .jstr ['w'])]].length ∧
    (∀ v ∈ [JVal.jstr ['a'], .jobj [(['k'], .jstr ['v']), (['l'], .jstr ['w'])]],
      ∀ str, v = .jstr str → normItem v = str) ∧
    (∀ v ∈ [JVal.jstr ['a'], .jobj [(['k'], .jstr ['v']), (['l'], .jstr ['w'])]],
      ∀ fields (vals : List (List Char)), v = .jobj fields →
        fields.map (fun kv => kv.2) = vals.map .jstr →
        normItem v = joinSep [' ', '–', ' '] vals) :=
  C5_key_functions_normalisation ['o', 'k']
    [.jstr ['a'], .jobj [(['k'], .jstr ['v']), (['l'], .jstr ['w'])]]
    (by
      intro v hv
      rcases hv with _ | ⟨_, hv⟩
      · exact Or.inl ⟨['a'], rfl⟩
      · rcases hv with _ | ⟨_, hv⟩
        · refine Or.inr ⟨[(['k'], JVal.jstr ['v']), (['l'], JVal.jstr ['w'])], rfl, ?_⟩
          intro kv hkv
          rcases hkv with _ | ⟨_, hkv⟩
          · exact ⟨['v'], rfl⟩
          · rcases hkv with _ | ⟨_, hkv⟩
            · exact ⟨['w'], rfl⟩
            · cases hkv
        · cases hv)

/-- Counterexample to C6 as stated: a parsed summary object missing all
three required list fields (`key_functions`, `permissions`,
`security_patterns`) does not fail validation — construction succeeds,
defaulting every missing list field to the empty list. -/
theorem C6_counterexample :
    mkSummary (.jobj [("summary".toList, .jstr ['o', 'k'])]) =
      .ok ⟨['o', 'k'], [], [], []⟩ := by rfl

/-- C6, amended: generation construction fails when `code` or
`explanation` is absent, and summary construction fails when `summary` is
absent; absent list fields of the summary shape are instead defaulted to
empty lists by the before-validator (see the counterexample). -/
theorem C6_required_fields (fields : List (List Char × JVal)) :
    (lookupLast ("code".toList) fields = none →
      ∃ e, mkContractResponse (.jobj fields) = .error e) ∧
    (lookupLast ("explanation".toList) fields = none →
      ∃ e, mkContractResponse (.jobj fields) = .error e) ∧
    (lookupLast ("summary".toList) fields = none →
      ∃ e, mkSummary (.jobj fields) = .error e) := by
  refine ⟨?_, ?_, ?_⟩
  · intro h
    exact ⟨"validation error", by unfold mkContractResponse; simp only []; rw [h]⟩
  · intro h
    rcases hlc : lookupLast ("code".toList) fields with _ | v
    · exact ⟨"validation error", by
        unfold mkContractResponse; simp only []; rw [hlc, h]⟩
    · rcases v <;>
        exact ⟨"validation error", by
          unfold mkContractResponse; simp only []; rw [hlc, h]⟩
  · intro h
    rcases hkf : normaliseField (lookupLast ("key_functions".toList) fields) with _ | kf <;>
      rcases hpm : normaliseField (lookupLast ("permissions".toList) fields) with _ | pm <;>
        rcases hsp : normaliseField (lookupLast ("security_patterns".toList) fields) with _ | sp <;>
          exact ⟨_, by
            unfold mkSummary
            simp only []
            rw [hkf, hpm, hsp]
            all_goals rw [h]⟩

theorem C6_required_fields_witness :
    (∃ e, mkContractResponse (.jobj [("explanation".toList, .jstr ['e'])]) = .error e) ∧
    (∃ e, mkContractResponse (.jobj [("code".toList, .jstr ['c'])]) = .error e) ∧
    (∃ e, mkSummary (.jobj []) = .error e) :=
  ⟨(C6_required_fields [("explanation".toList, .jstr ['e'])]).1 (by rfl),
   (C6_required_fields [("code".toList, .jstr ['c'])]).2.1 (by rfl),
   (C6_required_fields []).2.2 (by rfl)⟩

theorem stripFencesF_nil : ∀ (fuel : Nat), stripFencesF fuel [] = [] := by
  intro fuel
  cases fuel <;> rfl

/-- One fence-removal step on a non-fence head: keep the character. -/
theorem stripFencesF_step_keep (f : Nat) (c : Char) (rest : List Char)
    (h : ¬ (c = '`' ∧ rest.take 2 = ['`', '`'])) :
    stripFencesF (f + 1) (c :: rest) = c :: stripFencesF f rest := by
  have hd : stripFencesF (f + 1) (c :: rest)
      = if c = '`' ∧ rest.take 2 = ['`', '`'] then
          (if isJsonTag (rest.drop 2) then stripFencesF f ((rest.drop 2).drop 4)
           else stripFencesF f (rest.drop 2))
        else c :: stripFencesF f rest := rfl
  rw [hd, if_neg h]

/-- One fence-removal step on an untagged fence: drop the backticks. -/
theorem stripFencesF_step_fence (f : Nat) (rest : List Char)
    (ht : rest.take 2 = ['`', '`']) (htag : isJsonTag (rest.drop 2) = false) :
    stripFencesF (f + 1) ('`' :: rest) = stripFencesF f (rest.drop 2) := by
  have hd : stripFencesF (f + 1) ('`' :: rest)
      = if '`' = '`' ∧ rest.take 2 = ['`', '`'] then
          (if isJsonTag (rest.drop 2) then stripFencesF f ((rest.drop 2).drop 4)
           else stripFencesF f (rest.drop 2))
        else '`' :: stripFencesF f rest := rfl
  rw [hd, if_pos ⟨rfl, ht⟩, if_neg (by rw [htag]; simp)]

/-- One fence-removal step on a `json`-tagged fence: drop backticks and
tag. -/
theorem stripFencesF_step_tag (f : Nat) (rest : List Char)
    (ht : rest.take 2 = ['`', '`']) (htag : isJsonTag (rest.drop 2) = true) :
    stripFencesF (f + 1) ('`' :: rest) = stripFencesF f ((rest.drop 2).drop 4) := by
  have hd : stripFencesF (f + 1) ('`' :: rest)
      = if '`' = '`' ∧ rest.take 2 = ['`', '`'] then
          (if isJsonTag (rest.drop 2) then stripFencesF f ((rest.drop 2).drop 4)
           else stripFencesF f (rest.drop 2))
        else '`' :: stripFencesF f rest := rfl
  rw [hd, if_pos ⟨rfl, ht⟩, if_pos htag]

/-- Fence removal is the identity on fence-free text. -/
theorem stripFencesF_nofence : ∀ (fuel : Nat) (cs : List Char),
    hasFence cs = false → stripFencesF fuel cs = cs := by
  intro fuel
  induction fuel with
  | zero => intro cs _; rfl
  | succ f ih =>
    intro cs h
    cases cs with
    | nil => rfl
    | cons c rest =>
      rw [hasFence, Bool.or_eq_false_iff] at h
      obtain ⟨h1, h2⟩ := h
      rw [stripFencesF_step_keep f c rest (of_decide_eq_false h1), ih rest h2]

theorem stripFences_nofence (cs : List Char) (h : hasFence cs = false) :
    stripFences cs = cs :=
  stripFencesF_nofence cs.length cs h

/-- The `json` tag is recognised after an opening fence. -/
theorem isJsonTag_json (X : List Char) : isJsonTag ('j' :: 's' :: 'o' :: 'n' :: X) = true := rfl

/-- A newline never starts a `json` tag. -/
theorem isJsonTag_newline (X : List Char) : isJsonTag ('\n' :: X) = false := by
  rcases X with _ | ⟨a, _ | ⟨b, _ | ⟨c, X'⟩⟩⟩ <;> rfl

/-- Walking fence removal across a fence-free middle up to the closing
fence: the closing fence is removed, everything else kept. -/
theorem stripFencesF_tail : ∀ (mid : List Char) (fuel : Nat),
    hasFence mid = false → mid.length + 4 ≤ fuel →
    stripFencesF fuel (mid ++ '\n' :: ['`', '`', '`']) = mid ++ ['\n'] := by
  intro mid
  induction mid with
  | nil =>
    intro fuel _ hf
    obtain ⟨f1, rfl⟩ : ∃ k, fuel = k + 1 := ⟨fuel - 1, by omega⟩
    obtain ⟨f2, rfl⟩ : ∃ k, f1 = k + 1 := ⟨f1 - 1, by omega⟩
    simp only [List.nil_append]
    rw [stripFencesF_step_keep (f2 + 1) '\n' ['`', '`', '`'] (by decide)]
    rw [stripFencesF_step_fence f2 ['`', '`'] (by decide) (by decide)]
    rw [show List.drop 2 (['`', '`'] : List Char) = [] from rfl, stripFencesF_nil]
  | cons m mid' ih =>
    intro fuel h hf
    obtain ⟨f1, rfl⟩ : ∃ k, fuel = k + 1 := ⟨fuel - 1, by omega⟩
    rw [hasFence, Bool.or_eq_false_iff] at h
    obtain ⟨h1, h2⟩ := h
    have hcond : ¬ (m = '`' ∧ (mid' ++ '\n' :: ['`', '`', '`']).take 2 = ['`', '`']) := by
      rintro ⟨hm, htake⟩
      apply of_decide_eq_false h1
      refine ⟨hm, ?_⟩
      cases mid' with
      | nil => exact absurd htake (by decide)
      | cons a mid'' =>
        cases mid'' with
        | nil =>
          rw [show (a :: ([] : List Char) ++ '\n' :: ['`', '`', '`']).take 2
              = [a, '\n'] from rfl] at htake
          rw [List.cons.injEq, List.cons.injEq] at htake
          exact absurd htake.2.1 (by decide)
        | cons b mid''' =>
          rw [show ((a :: b :: mid''') ++ '\n' :: ['`', '`', '`']).take 2
              = [a, b] from rfl] at htake
          rw [show (a :: b :: mid''').take 2 = [a, b] from rfl]
          exact htake
    rw [List.cons_append, stripFencesF_step_keep f1 m _ hcond]
    rw [ih f1 h2 (by simp only [List.length_cons] at hf; omega)]
    rfl

/-- Python strip walks over a leading whitespace character. -/
theorem pyStrip_cons_ws (c : Char) (cs : List Char) (hc : isPyWs c = true) :
    pyStrip (c :: cs) = pyStrip cs := by
  unfold pyStrip
  rw [List.dropWhile_cons, if_pos hc]

/-- Dropping while over an append. -/
theorem dropWhile_append_cases (p : Char → Bool) : ∀ (a b : List Char),
    (a ++ b).dropWhile p =
      if (a.dropWhile p).isEmpty then b.dropWhile p else a.dropWhile p ++ b := by
  intro a
  induction a with
  | nil => intro b; simp
  | cons x a' ih =>
    intro b
    simp only [List.cons_append, List.dropWhile_cons]
    by_cases hx : p x
    · rw [if_pos hx, if_pos hx, ih]
    · rw [if_neg hx, if_neg hx]
      simp

/-- Python strip drops a trailing whitespace character. -/
theorem pyStrip_append_ws (cs : List Char) (c : Char) (hc : isPyWs c = true) :
    pyStrip (cs ++ [c]) = pyStrip cs := by
  unfold pyStrip
  rw [dropWhile_append_cases]
  by_cases hall : (cs.dropWhile isPyWs).isEmpty
  · rw [if_pos hall]
    rw [List.isEmpty_iff] at hall
    rw [hall]
    simp [List.dropWhile_cons, hc]
  · rw [if_neg hall]
    rw [List.reverse_append]
    simp only [List.reverse_cons, List.reverse_nil, List.nil_append, List.singleton_append]
    rw [List.dropWhile_cons, if_pos hc]

/-- Stripping does not touch a text opening and closing with backticks. -/
theorem pyStrip_backtick_frame (X : List Char) :
    pyStrip ('`' :: X ++ ['`', '`', '`']) = '`' :: X ++ ['`', '`', '`'] := by
  unfold pyStrip
  rw [show ('`' :: X ++ ['`', '`', '`']) = '`' :: (X ++ ['`', '`', '`']) from rfl]
  rw [List.dropWhile_cons, if_neg (by decide)]
  rw [show ('`' :: (X ++ ['`', '`', '`'])).reverse
      = '`' :: '`' :: '`' :: (X.reverse ++ ['`']) from by simp]
  rw [List.dropWhile_cons, if_neg (by decide)]
  rw [show ('`' :: '`' :: '`' :: (X.reverse ++ ['`'])).reverse
      = '`' :: (X ++ ['`', '`', '`']) from by simp]

/-- A fence-free text stays fence-free with a newline prefix. -/
theorem hasFence_newline_cons (J : List Char) (h : hasFence J = false) :
    hasFence ('\n' :: J) = false := by
  rw [hasFence, Bool.or_eq_false_iff]
  refine ⟨?_, h⟩
  apply decide_eq_false
  rintro ⟨hc, -⟩
  exact absurd hc (by decide)

/-- C3, amended: wrapping a well-formed JSON text in markdown code fences —
with or without a `json` language tag — leaves the explain-side
normalizer's result unchanged, provided the bare text itself carries no
triple-backtick run: it then recovers exactly the object parsed from the
bare text.  The fence-freeness hypothesis is forced — the stripper removes
fence markers anywhere, so a backtick run inside a string value is
destroyed (see the counterexample).  (The text is also taken
whitespace-trimmed; both pipelines strip edge whitespace anyway, so the
trimming hypothesis only normalises the statement.) -/
theorem C3_fenced_json (J : List Char) (v : JVal) (tag : Bool)
    (hJ : jsonLoads J = some v) (hfence : hasFence J = false)
    (hstrip : pyStrip J = J) :
    normalizeLLMJson (wrapFence tag J) = some v := by
  have hmid := hasFence_newline_cons J hfence
  have h1 : pyStrip (wrapFence tag J) = wrapFence tag J := by
    rw [show wrapFence tag J
        = '`' :: (('`' :: '`' :: (if tag then ['j', 's', 'o', 'n'] else []) ++
            '\n' :: J ++ ['\n'])) ++ ['`', '`', '`'] from by cases tag <;> simp [wrapFence]]
    exact pyStrip_backtick_frame _
  have h2 : stripFences (wrapFence tag J) = '\n' :: J ++ ['\n'] := by
    unfold stripFences
    cases tag
    · rw [show wrapFence false J
          = '`' :: ('`' :: '`' :: ('\n' :: (J ++ '\n' :: ['`', '`', '`'])))
          from by simp [wrapFence]]
      rw [show ('`' :: ('`' :: '`' :: ('\n' :: (J ++ '\n' :: ['`', '`', '`'])))).length
          = (J.length + 7) + 1 from by
        simp only [List.length_cons, List.length_append, List.length_nil]]
      rw [stripFencesF_step_fence (J.length + 7)
        ('`' :: '`' :: ('\n' :: (J ++ '\n' :: ['`', '`', '`']))) rfl (isJsonTag_newline _)]
      rw [show ('`' :: '`' :: ('\n' :: (J ++ '\n' :: ['`', '`', '`']))).drop 2
          = ('\n' :: J) ++ '\n' :: ['`', '`', '`'] from by simp]
      rw [stripFencesF_tail ('\n' :: J) (J.length + 7) hmid (by simp)]
    · rw [show wrapFence true J
          = '`' :: ('`' :: '`' :: 'j' :: 's' :: 'o' :: 'n' ::
              ('\n' :: (J ++ '\n' :: ['`', '`', '`'])))
          from by simp [wrapFence]]
      rw [show ('`' :: ('`' :: '`' :: 'j' :: 's' :: 'o' :: 'n' ::
          ('\n' :: (J ++ '\n' :: ['`', '`', '`'])))).length
          = (J.length + 11) + 1 from by
        simp only [List.length_cons, List.length_append, List.length_nil]]
      rw [stripFencesF_step_tag (J.length + 11)
        ('`' :: '`' :: 'j' :: 's' :: 'o' :: 'n' :: ('\n' :: (J ++ '\n' :: ['`', '`', '`'])))
        rfl (isJsonTag_json _)]
      rw [show (('`' :: '`' :: 'j' :: 's' :: 'o' :: 'n' ::
          ('\n' :: (J ++ '\n' :: ['`', '`', '`']))).drop 2).drop 4
          = ('\n' :: J) ++ '\n' :: ['`', '`', '`'] from by simp]
      rw [stripFencesF_tail ('\n' :: J) (J.length + 11) hmid (by simp)]
  unfold normalizeLLMJson
  rw [h1, h2]
  rw [show ('\n' :: J ++ ['\n']) = '\n' :: (J ++ ['\n']) from by simp]
  rw [pyStrip_cons_ws '\n' _ (by decide), pyStrip_append_ws J '\n' (by decide), hstrip, hJ]

theorem C3_fenced_json_witness :
    normalizeLLMJson (wrapFence true
      ('{' :: "\"summary\":\"ok\",\"key_functions\":[],\"permissions\":[],\"security_patterns\":[]".toList
        ++ ['}'])) =
      some (.jobj [("summary".toList, .jstr ['o', 'k']),
                   ("key_functions".toList, .jarr []),
                   ("permissions".toList, .jarr []),
                   ("security_patterns".toList, .jarr [])]) :=
  C3_fenced_json _ _ true (by rfl) (by decide) (by rfl)

/-- Counterexample to C3 as stated: the well-formed JSON text
`\x7b"a":"```"\x7d` parses directly to an object whose `a` field holds
three backticks, but the normalizer on its fenced wrapping strips the
backtick run inside the string value and recovers a different object —
the `a` field becomes empty. -/
theorem C3_counterexample :
    jsonLoads ('{' :: '"' :: 'a' :: '"' :: ':' :: '"' :: '`' :: '`' :: '`' ::
        '"' :: ['}'])
      = some (.jobj [(['a'], .jstr ['`', '`', '`'])])
    ∧ normalizeLLMJson (wrapFence false
        ('{' :: '"' :: 'a' :: '"' :: ':' :: '"' :: '`' :: '`' :: '`' ::
          '"' :: ['}']))
      = some (.jobj [(['a'], .jstr [])]) :=
  ⟨rfl, rfl⟩

/-- The three sequential replaces of `patch_newlines` amount to one
character-wise substitution. -/
theorem escapeCodeBody_eq_flatMap (cs : List Char) :
    escapeCodeBody cs = cs.flatMap escChar := by
  induction cs with
  | nil => rfl
  | cons c cs ih =>
    unfold escapeCodeBody replaceChar at ih ⊢
    rw [List.flatMap_cons, List.flatMap_append, List.flatMap_append, ih,
      List.flatMap_cons]
    congr 1
    by_cases hc1 : c = '\\'
    · subst hc1; rfl
    by_cases hc2 : c = '"'
    · subst hc2; rfl
    by_cases hc3 : c = '\n'
    · subst hc3; rfl
    · simp [escChar, hc1, hc2, hc3]

/-- An unescaped quote ends the scanned string body. -/
theorem parseStringBody_quote (Z : List Char) :
    parseStringBody ('"' :: Z) = some ([], Z) := by
  rw [parseStringBody.eq_def]
  simp only []
  rw [if_pos trivial]

/-- An escaped backslash scans to a single backslash. -/
theorem parseStringBody_bs (X : List Char) :
    parseStringBody ('\\' :: '\\' :: X)
      = (parseStringBody X).map fun p => ('\\' :: p.1, p.2) := by
  rw [parseStringBody.eq_def]
  simp only []
  rw [if_neg (by decide), if_pos trivial, if_neg (by decide), if_neg (by decide),
    if_pos trivial]

/-- An escaped quote scans to a single quote. -/
theorem parseStringBody_quoteEsc (X : List Char) :
    parseStringBody ('\\' :: '"' :: X)
      = (parseStringBody X).map fun p => ('"' :: p.1, p.2) := by
  rw [parseStringBody.eq_def]
  simp only []
  rw [if_neg (by decide), if_pos trivial, if_neg (by decide), if_pos trivial]

/-- An escaped `n` scans to a newline. -/
theorem parseStringBody_nlEsc (X : List Char) :
    parseStringBody ('\\' :: 'n' :: X)
      = (parseStringBody X).map fun p => ('\n' :: p.1, p.2) := by
  rw [parseStringBody.eq_def]
  simp only []
  rw [if_neg (by decide), if_pos trivial, if_neg (by decide), if_neg (by decide),
    if_neg (by decide), if_neg (by decide), if_neg (by decide), if_neg (by decide),
    if_pos trivial]

/-- A plain character (not a quote, backslash or control character) passes
through the string scanner. -/
theorem parseStringBody_cons (c : Char) (t : List Char)
    (h1 : c ≠ '"') (h2 : c ≠ '\\') (h3 : ¬ c.toNat < 0x20) :
    parseStringBody (c :: t) = (parseStringBody t).map fun p => (c :: p.1, p.2) := by
  rw [parseStringBody.eq_def]
  simp only []
  rw [if_neg h1, if_neg h2, if_neg h3]

/-- Round trip: the escaped code body parses back to the raw content, up
to the closing quote. -/
theorem parseStringBody_escape : ∀ (code Z : List Char),
    (∀ c ∈ code, c = '\n' ∨ ¬ c.toNat < 0x20) →
    parseStringBody (escapeCodeBody code ++ '"' :: Z) = some (code, Z) := by
  intro code
  induction code with
  | nil =>
    intro Z _
    rw [show escapeCodeBody [] = [] from rfl, List.nil_append,
      parseStringBody_quote]
  | cons c cs ih =>
    intro Z hc
    rw [escapeCodeBody_eq_flatMap, List.flatMap_cons, ← escapeCodeBody_eq_flatMap]
    by_cases h1 : c = '\\'
    · subst h1
      rw [show escChar '\\' = ['\\', '\\'] from rfl]
      rw [show (['\\', '\\'] ++ escapeCodeBody cs) ++ '"' :: Z
          = '\\' :: '\\' :: (escapeCodeBody cs ++ '"' :: Z) from by simp]
      rw [parseStringBody_bs, ih Z fun x hx => hc x (by simp [hx])]
      rfl
    by_cases h2 : c = '"'
    · subst h2
      rw [show escChar '"' = ['\\', '"'] from rfl]
      rw [show (['\\', '"'] ++ escapeCodeBody cs) ++ '"' :: Z
          = '\\' :: '"' :: (escapeCodeBody cs ++ '"' :: Z) from by simp]
      rw [parseStringBody_quoteEsc, ih Z fun x hx => hc x (by simp [hx])]
      rfl
    by_cases h3 : c = '\n'
    · subst h3
      rw [show escChar '\n' = ['\\', 'n'] from rfl]
      rw [show (['\\', 'n'] ++ escapeCodeBody cs) ++ '"' :: Z
          = '\\' :: 'n' :: (escapeCodeBody cs ++ '"' :: Z) from by simp]
      rw [parseStringBody_nlEsc, ih Z fun x hx => hc x (by simp [hx])]
      rfl
    · have hesc : escChar c = [c] := by simp [escChar, h1, h2, h3]
      rw [hesc]
      rw [show ([c] ++ escapeCodeBody cs) ++ '"' :: Z
          = c :: (escapeCodeBody cs ++ '"' :: Z) from by simp]
      have hctrl : ¬ c.toNat < 0x20 := by
        rcases hc c (by simp) with h | h
        · exact absurd h h3
        · exact h
      rw [parseStringBody_cons c _ h2 h1 hctrl]
      rw [ih Z fun x hx => hc x (by simp [hx])]
      rfl

/-- Plain content (no quotes, backslashes or control characters) parses to
itself up to the closing quote. -/
theorem parseStringBody_plain : ∀ (s Z : List Char),
    (∀ c ∈ s, c ≠ '"' ∧ c ≠ '\\' ∧ ¬ c.toNat < 0x20) →
    parseStringBody (s ++ '"' :: Z) = some (s, Z) := by
  intro s
  induction s with
  | nil => intro Z _; rw [List.nil_append, parseStringBody_quote]
  | cons c cs ih =>
    intro Z h
    obtain ⟨h1, h2, h3⟩ := h c (by simp)
    rw [List.cons_append, parseStringBody_cons c _ h1 h2 h3]
    rw [ih Z fun x hx => h x (by simp [hx])]
    rfl

/-- Skipping JSON whitespace stops at a non-whitespace head. -/
theorem skipWs_cons_nonws (c : Char) (l : List Char) (h : isJsonWs c = false) :
    skipWs (c :: l) = c :: l := by
  simp [skipWs, List.dropWhile_cons, h]

/-- Entering an object: a `{` followed by a quote starts member parsing. -/
theorem parseF_val_obj (f : Nat) (R : List Char) :
    parseF (f + 1) .val ('{' :: '"' :: R) = parseF f .mem ('"' :: R) := by
  rw [parseF.eq_def]
  simp only []
  rw [skipWs_cons_nonws '"' R (by decide)]
  simp only []
  rw [if_neg (by decide)]

/-- A quoted value parses through the string scanner. -/
theorem parseF_val_str (f : Nat) (R : List Char) :
    parseF (f + 1) .val ('"' :: R)
      = (parseStringBody R).map fun p => (.jstr p.1, p.2) := by
  rw [parseF.eq_def]
  simp only []

/-- Stripping leaves a text framed by a brace pair unchanged. -/
theorem pyStrip_brace_frame (mid : List Char) :
    pyStrip ('{' :: mid ++ ['}']) = '{' :: mid ++ ['}'] := by
  unfold pyStrip
  simp only [List.cons_append]
  rw [dropWhile_cons_neg '{' _ (by decide)]
  rw [show ('{' :: (mid ++ ['}'])).reverse = '}' :: (mid.reverse ++ ['{']) by simp]
  rw [dropWhile_cons_neg '}' _ (by decide)]
  simp

/-- `str.find` at a matching head. -/
theorem findChar_head (t : Char) (l : List Char) : findChar t (t :: l) = some 0 := by
  simp [findChar]

/-- `str.rfind` of the final character. -/
theorem rfindChar_last (t : Char) : ∀ l : List Char, rfindChar t (l ++ [t]) = some l.length := by
  intro l
  induction l with
  | nil => simp [rfindChar]
  | cons c l ih =>
    rw [List.cons_append, rfindChar, ih]
    simp

/-- `extract_json` on a fence-free text framed by a brace pair returns the
whole text: the first `{` is at position 0 and the last `}` at the end. -/
theorem extract_json_frame (mid : List Char)
    (hfence : hasFence ('{' :: mid ++ ['}']) = false) :
    extract_json ('{' :: mid ++ ['}']) = .ok ('{' :: mid ++ ['}']) := by
  have hdef : extract_json ('{' :: mid ++ ['}']) =
      (match findChar '{' (pyStrip (stripFences ('{' :: mid ++ ['}']))),
             rfindChar '}' (pyStrip (stripFences ('{' :: mid ++ ['}']))) with
       | some s, some e =>
         if e ≤ s then Except.error "No JSON object found in model output"
         else .ok (((pyStrip (stripFences ('{' :: mid ++ ['}']))).drop s).take (e + 1 - s))
       | none, _ => .error "No JSON object found in model output"
       | some _, none => .error "No JSON object found in model output") := rfl
  rw [hdef, stripFences_nofence _ hfence, pyStrip_brace_frame]
  rw [show findChar '{' ('{' :: mid ++ ['}']) = some 0 from by
    rw [List.cons_append]; exact findChar_head _ _]
  rw [show rfindChar '}' ('{' :: mid ++ ['}']) = some (mid.length + 1) from by
    simpa using rfindChar_last '}' ('{' :: mid)]
  simp only []
  rw [if_neg (by omega), List.drop_zero]
  rw [List.take_of_length_le (by
    simp only [List.cons_append, List.length_cons, List.length_append,
      List.length_singleton, List.length_nil]
    omega)]

/-- The lazy search walks over a body with no premature delimiter match and
stops at the first position where the delimiter matches. -/
theorem findDelim_prefix : ∀ (body tail d r : List Char),
    matchDelimAt tail = some (d, r) →
    (∀ i, i < body.length → matchDelimAt ((body ++ tail).drop i) = none) →
    findDelim (body ++ tail) = some (body, d, r) := by
  intro body
  induction body with
  | nil =>
    intro tail d r hm _
    cases tail with
    | nil => simp [matchDelimAt, matchLit] at hm
    | cons c t =>
      rw [List.nil_append, findDelim, hm]
  | cons c body ih =>
    intro tail d r hm hnone
    rw [List.cons_append, findDelim]
    have h0 : matchDelimAt (c :: (body ++ tail)) = none := by
      have h := hnone 0 (by simp)
      rw [List.drop_zero] at h
      rw [← List.cons_append]
      exact h
    rw [h0]
    simp only []
    rw [ih tail d r hm fun i hi => by
      have h := hnone (i + 1) (by simp only [List.length_cons]; omega)
      rw [List.cons_append, List.drop_succ_cons] at h
      exact h]
    rfl

/-- Group 1 never matches at an opening brace. -/
theorem matchOpenAt_brace (l : List Char) : matchOpenAt ('{' :: l) = none := by
  unfold matchOpenAt
  rw [show matchLit ['"', 'c', 'o', 'd', 'e', '"'] ('{' :: l) = none from by
    simp [matchLit]]

/-- On a generation-shaped text whose code body never prematurely matches
the delimiter, the repair pass escapes exactly the code body. -/
theorem patch_genShape (code expl : List Char)
    (hdelim : ∀ i, i < code.length →
      matchDelimAt ((code ++ genTail expl).drop i) = none) :
    patch_newlines (genShape code expl)
      = genOpen ++ escapeCodeBody code ++ genTail expl := by
  have hgs : genShape code expl
      = '{' :: ('"' :: 'c' :: 'o' :: 'd' :: 'e' :: '"' :: ':' :: '"' ::
          (code ++ genTail expl)) := by
    simp [genShape, genOpen]
  have hmo : matchOpenAt ('"' :: 'c' :: 'o' :: 'd' :: 'e' :: '"' :: ':' :: '"' ::
        (code ++ genTail expl))
      = some (['"', 'c', 'o', 'd', 'e', '"', ':', '"'], code ++ genTail expl) := by
    have h := matchOpenAt_complete ['"', 'c', 'o', 'd', 'e', '"', ':', '"']
      (code ++ genTail expl) ⟨[], [], by simp, by simp, rfl⟩
    rw [show (['"', 'c', 'o', 'd', 'e', '"', ':', '"'] ++ (code ++ genTail expl))
        = '"' :: 'c' :: 'o' :: 'd' :: 'e' :: '"' :: ':' :: '"' ::
          (code ++ genTail expl) from rfl] at h
    exact h
  have hmd : matchDelimAt (genTail expl)
      = some (['"', ',', '"', 'e', 'x', 'p', 'l', 'a', 'n', 'a', 't', 'i', 'o', 'n', '"'],
          ':' :: '"' :: (expl ++ ['"', '}'])) := by
    have h := matchDelimAt_complete
      ['"', ',', '"', 'e', 'x', 'p', 'l', 'a', 'n', 'a', 't', 'i', 'o', 'n', '"']
      (':' :: '"' :: (expl ++ ['"', '}'])) ⟨[], [], by simp, by simp, rfl⟩
    rw [show (['"', ',', '"', 'e', 'x', 'p', 'l', 'a', 'n', 'a', 't', 'i', 'o', 'n', '"']
          ++ (':' :: '"' :: (expl ++ ['"', '}']))) = genTail expl from rfl] at h
    exact h
  have hfd : findDelim (code ++ genTail expl)
      = some (code,
          ['"', ',', '"', 'e', 'x', 'p', 'l', 'a', 'n', 'a', 't', 'i', 'o', 'n', '"'],
          ':' :: '"' :: (expl ++ ['"', '}'])) :=
    findDelim_prefix code (genTail expl) _ _ hmd hdelim
  unfold patch_newlines
  rw [hgs, patchScan, matchOpenAt_brace]
  simp only []
  rw [patchScan, hmo]
  simp only []
  rw [hfd]
  simp only [Option.map_some', Option.getD_some]
  simp [genOpen, genTail]

/-- The escaped generation text parses to the two-field object holding the
raw code and the explanation. -/
theorem jsonLoads_genEscaped (code expl : List Char)
    (hcode : ∀ c ∈ code, c = '\n' ∨ ¬ c.toNat < 0x20)
    (hexpl : ∀ c ∈ expl, c ≠ '"' ∧ c ≠ '\\' ∧ ¬ c.toNat < 0x20) :
    jsonLoads (genOpen ++ escapeCodeBody code ++ genTail expl)
      = some (.jobj [(['c', 'o', 'd', 'e'], .jstr code),
          (['e', 'x', 'p', 'l', 'a', 'n', 'a', 't', 'i', 'o', 'n'], .jstr expl)]) := by
  have h3 : parseF (26 + (escapeCodeBody code).length + expl.length + 1) .mem
      ('"' :: ('e' :: 'x' :: 'p' :: 'l' :: 'a' :: 'n' :: 'a' :: 't' :: 'i' :: 'o' :: 'n' ::
        '"' :: ':' :: '"' :: (expl ++ ['"', '}'])))
      = some (.jobj [(['e', 'x', 'p', 'l', 'a', 'n', 'a', 't', 'i', 'o', 'n'],
          .jstr expl)], []) := by
    rw [parseF.eq_def]
    simp only []
    rw [show ('e' :: 'x' :: 'p' :: 'l' :: 'a' :: 'n' :: 'a' :: 't' :: 'i' :: 'o' :: 'n' ::
        '"' :: ':' :: '"' :: (expl ++ ['"', '}']) : List Char)
        = ['e', 'x', 'p', 'l', 'a', 'n', 'a', 't', 'i', 'o', 'n'] ++ '"' ::
          (':' :: '"' :: (expl ++ ['"', '}'])) from rfl]
    rw [parseStringBody_plain _ _ (by decide)]
    simp only []
    rw [skipWs_cons_nonws ':' _ (by decide)]
    simp only []
    rw [if_pos trivial]
    rw [skipWs_cons_nonws '"' _ (by decide)]
    rw [show (26 + (escapeCodeBody code).length + expl.length : Nat)
        = 25 + (escapeCodeBody code).length + expl.length + 1 from by omega]
    rw [parseF_val_str]
    rw [parseStringBody_plain expl ['}'] hexpl]
    rfl
  have h2 : parseF (27 + (escapeCodeBody code).length + expl.length + 1) .mem
      ('"' :: ('c' :: 'o' :: 'd' :: 'e' :: '"' :: ':' :: '"' ::
        (escapeCodeBody code ++ genTail expl)))
      = some (.jobj [(['c', 'o', 'd', 'e'], .jstr code),
          (['e', 'x', 'p', 'l', 'a', 'n', 'a', 't', 'i', 'o', 'n'], .jstr expl)], []) := by
    rw [parseF.eq_def]
    simp only []
    rw [show ('c' :: 'o' :: 'd' :: 'e' :: '"' :: ':' :: '"' ::
        (escapeCodeBody code ++ genTail expl) : List Char)
        = ['c', 'o', 'd', 'e'] ++ '"' ::
          (':' :: '"' :: (escapeCodeBody code ++ genTail expl)) from rfl]
    rw [parseStringBody_plain _ _ (by decide)]
    simp only []
    rw [skipWs_cons_nonws ':' _ (by decide)]
    simp only []
    rw [if_pos trivial]
    rw [skipWs_cons_nonws '"' _ (by decide)]
    rw [show (27 + (escapeCodeBody code).length + expl.length : Nat)
        = 26 + (escapeCodeBody code).length + expl.length + 1 from by omega]
    rw [parseF_val_str]
    rw [show escapeCodeBody code ++ genTail expl
        = escapeCodeBody code ++ '"' ::
          (',' :: '"' :: 'e' :: 'x' :: 'p' :: 'l' :: 'a' :: 'n' :: 'a' :: 't' :: 'i' ::
            'o' :: 'n' :: '"' :: ':' :: '"' :: (expl ++ ['"', '}'])) from rfl]
    rw [parseStringBody_escape code _ hcode]
    simp only [Option.map_some']
    rw [skipWs_cons_nonws ',' _ (by decide)]
    simp only []
    rw [if_pos trivial]
    rw [skipWs_cons_nonws '"' _ (by decide)]
    rw [h3]
  have hform : genOpen ++ escapeCodeBody code ++ genTail expl
      = '{' :: '"' :: ('c' :: 'o' :: 'd' :: 'e' :: '"' :: ':' :: '"' ::
        (escapeCodeBody code ++ genTail expl)) := by
    simp [genOpen]
  have hlen : ('{' :: '"' :: ('c' :: 'o' :: 'd' :: 'e' :: '"' :: ':' :: '"' ::
        (escapeCodeBody code ++ genTail expl)) : List Char).length
      = 28 + (escapeCodeBody code).length + expl.length := by
    simp [genTail]
    omega
  unfold jsonLoads
  rw [hform, hlen]
  rw [skipWs_cons_nonws '{' _ (by decide)]
  rw [parseF_val_obj]
  rw [show (28 + (escapeCodeBody code).length + expl.length : Nat)
      = 27 + (escapeCodeBody code).length + expl.length + 1 from by omega]
  rw [h2]
  rfl

/-- `extract_json` returns a generation-shaped text whole: it is fence-free
by hypothesis, starts at its first `{` and ends at its last `}`. -/
theorem extract_json_genShape (code expl : List Char)
    (hfence : hasFence (genShape code expl) = false) :
    extract_json (genShape code expl) = .ok (genShape code expl) := by
  have hmid : genShape code expl
      = '{' :: ('"' :: 'c' :: 'o' :: 'd' :: 'e' :: '"' :: ':' :: '"' ::
          (code ++ '"' :: ',' :: '"' :: 'e' :: 'x' :: 'p' :: 'l' :: 'a' :: 'n' :: 'a' ::
            't' :: 'i' :: 'o' :: 'n' :: '"' :: ':' :: '"' :: (expl ++ ['"']))) ++ ['}'] := by
    simp [genShape, genOpen, genTail]
  rw [hmid]
  exact extract_json_frame _ (by rw [← hmid]; exact hfence)

/-- C1 (amended): for a generation-shaped response whose raw `code` content
holds literal newlines and double quotes (and no other control characters),
whose text carries no backtick fence and no premature delimiter match inside
the code body, and on which direct parsing fails, the repair pass yields a
parse whose `code` field is exactly the original unescaped content: escaping
backslashes, quotes and newlines and then JSON-unescaping is the identity on
the code body. -/
theorem C1_code_round_trip (code expl : List Char)
    (_hnl : '\n' ∈ code) (_hq : '"' ∈ code)
    (hcode : ∀ c ∈ code, c = '\n' ∨ ¬ c.toNat < 0x20)
    (hexpl : ∀ c ∈ expl, c ≠ '"' ∧ c ≠ '\\' ∧ ¬ c.toNat < 0x20)
    (hfence : hasFence (genShape code expl) = false)
    (hfail : jsonLoads (genShape code expl) = none)
    (hdelim : ∀ i, i < code.length →
      matchDelimAt ((code ++ genTail expl).drop i) = none) :
    parseGenResponseT (genShape code expl)
      = (.ok (.jobj [(['c', 'o', 'd', 'e'], .jstr code),
          (['e', 'x', 'p', 'l', 'a', 'n', 'a', 't', 'i', 'o', 'n'], .jstr expl)]), true)
    ∧ lookupLast ['c', 'o', 'd', 'e']
        [(['c', 'o', 'd', 'e'], .jstr code),
         (['e', 'x', 'p', 'l', 'a', 'n', 'a', 't', 'i', 'o', 'n'], .jstr expl)]
      = some (.jstr code) := by
  constructor
  · unfold parseGenResponseT
    rw [extract_json_genShape code expl hfence]
    simp only []
    rw [hfail]
    simp only []
    rw [patch_genShape code expl hdelim]
    rw [jsonLoads_genEscaped code expl hcode hexpl]
  · rfl

/-- The unamended C1 claim fails on a code body holding a tab: the repair
escapes only backslashes, quotes and newlines, so the repaired text still
carries a raw control character and the second parse also fails. -/
theorem C1_counterexample :
    parseGenResponseT (genShape ['a', '\n', '"', '\t'] ['e'])
      = (.error "JSONDecodeError", true) := by
  rfl

theorem C1_code_round_trip_witness :
    parseGenResponseT (genShape ['a', '\n', '"', 'b', '\\', 'c'] ['o', 'k'])
      = (.ok (.jobj [(['c', 'o', 'd', 'e'], .jstr ['a', '\n', '"', 'b', '\\', 'c']),
          (['e', 'x', 'p', 'l', 'a', 'n', 'a', 't', 'i', 'o', 'n'],
            .jstr ['o', 'k'])]), true)
    ∧ lookupLast ['c', 'o', 'd', 'e']
        [(['c', 'o', 'd', 'e'], .jstr ['a', '\n', '"', 'b', '\\', 'c']),
         (['e', 'x', 'p', 'l', 'a', 'n', 'a', 't', 'i', 'o', 'n'],
           .jstr ['o', 'k'])]
      = some (.jstr ['a', '\n', '"', 'b', '\\', 'c']) :=
  C1_code_round_trip ['a', '\n', '"', 'b', '\\', 'c'] ['o', 'k']
    (by decide) (by decide) (by decide) (by decide) (by decide) (by rfl) (by decide)

end Web3LLM
